import Mathlib

/-!
Verification of the hierarchical tabular-to-nested-map transformation engine
of the `aifinance` repository (`components/excel_processor.py`), shallowly
embedded in Lean 4.  Cells are modelled by `Value`, tables by `Table`
(ordered rows of named columns), nested results by `Nested`, and the
operations `_apply_filters`, `to_nested_dict`, `to_nested_dict_advanced`
and `get_keys_from_key` by executable Lean functions translated from the
Python source.
-/

namespace ExcelProc

/--
A scalar cell value or a structured tuple produced by tuple-string
normalization.
`int` models a Python `int`; `fl q` models the Python `float` denoted by
the rational `q` (a float literal or exact arithmetic result is modelled
by its exact mathematical value; the rounding of that value to double
precision, signed zeros, and infinities are not modelled, and no claim
exercises them); `cplx re im` models a Python `complex` with the same
convention for each component; `bool` a Python `bool`, `null` a missing
value (pandas `NaN`), `str` a string and `tup` a tuple.  Python
identifies `True` with `1` as a dict key and in hashing; that
identification is not modelled for dictionary keys (no claim exercises
it) but is modelled for `==`-comparisons via `Value.numQ`.
-/
inductive Value where
  | int (n : Int)
  | fl (q : Rat)
  | cplx (re im : Rat)
  | bool (b : Bool)
  | null
  | str (s : String)
  | tup (vs : List Value)
  deriving Repr

mutual

/-- Decidable equality for `Value` (hand-written: `Value` is a nested inductive). -/
def decEqValue : (a b : Value) → Decidable (a = b)
  | .int m, .int n =>
    if h : m = n then .isTrue (by rw [h]) else .isFalse (fun hc => h (by injection hc))
  | .fl p, .fl q =>
    if h : p = q then .isTrue (by rw [h]) else .isFalse (fun hc => h (by injection hc))
  | .cplx r1 i1, .cplx r2 i2 =>
    if h : r1 = r2 then
      if h2 : i1 = i2 then .isTrue (by rw [h, h2])
      else .isFalse (fun hc => h2 (by injection hc))
    else .isFalse (fun hc => h (by injection hc))
  | .bool a, .bool b =>
    if h : a = b then .isTrue (by rw [h]) else .isFalse (fun hc => h (by injection hc))
  | .null, .null => .isTrue rfl
  | .str s, .str t =>
    if h : s = t then .isTrue (by rw [h]) else .isFalse (fun hc => h (by injection hc))
  | .tup vs, .tup ws =>
    match decEqValueList vs ws with
    | .isTrue h => .isTrue (by rw [h])
    | .isFalse h => .isFalse (fun hc => h (by injection hc))
  | .int _, .fl _ => .isFalse (fun h => Value.noConfusion h)
  | .int _, .cplx _ _ => .isFalse (fun h => Value.noConfusion h)
  | .int _, .bool _ => .isFalse (fun h => Value.noConfusion h)
  | .int _, .null => .isFalse (fun h => Value.noConfusion h)
  | .int _, .str _ => .isFalse (fun h => Value.noConfusion h)
  | .int _, .tup _ => .isFalse (fun h => Value.noConfusion h)
  | .fl _, .int _ => .isFalse (fun h => Value.noConfusion h)
  | .fl _, .cplx _ _ => .isFalse (fun h => Value.noConfusion h)
  | .fl _, .bool _ => .isFalse (fun h => Value.noConfusion h)
  | .fl _, .null => .isFalse (fun h => Value.noConfusion h)
  | .fl _, .str _ => .isFalse (fun h => Value.noConfusion h)
  | .fl _, .tup _ => .isFalse (fun h => Value.noConfusion h)
  | .cplx _ _, .int _ => .isFalse (fun h => Value.noConfusion h)
  | .cplx _ _, .fl _ => .isFalse (fun h => Value.noConfusion h)
  | .cplx _ _, .bool _ => .isFalse (fun h => Value.noConfusion h)
  | .cplx _ _, .null => .isFalse (fun h => Value.noConfusion h)
  | .cplx _ _, .str _ => .isFalse (fun h => Value.noConfusion h)
  | .cplx _ _, .tup _ => .isFalse (fun h => Value.noConfusion h)
  | .bool _, .int _ => .isFalse (fun h => Value.noConfusion h)
  | .bool _, .fl _ => .isFalse (fun h => Value.noConfusion h)
  | .bool _, .cplx _ _ => .isFalse (fun h => Value.noConfusion h)
  | .bool _, .null => .isFalse (fun h => Value.noConfusion h)
  | .bool _, .str _ => .isFalse (fun h => Value.noConfusion h)
  | .bool _, .tup _ => .isFalse (fun h => Value.noConfusion h)
  | .null, .int _ => .isFalse (fun h => Value.noConfusion h)
  | .null, .fl _ => .isFalse (fun h => Value.noConfusion h)
  | .null, .cplx _ _ => .isFalse (fun h => Value.noConfusion h)
  | .null, .bool _ => .isFalse (fun h => Value.noConfusion h)
  | .null, .str _ => .isFalse (fun h => Value.noConfusion h)
  | .null, .tup _ => .isFalse (fun h => Value.noConfusion h)
  | .str _, .int _ => .isFalse (fun h => Value.noConfusion h)
  | .str _, .fl _ => .isFalse (fun h => Value.noConfusion h)
  | .str _, .cplx _ _ => .isFalse (fun h => Value.noConfusion h)
  | .str _, .bool _ => .isFalse (fun h => Value.noConfusion h)
  | .str _, .null => .isFalse (fun h => Value.noConfusion h)
  | .str _, .tup _ => .isFalse (fun h => Value.noConfusion h)
  | .tup _, .int _ => .isFalse (fun h => Value.noConfusion h)
  | .tup _, .fl _ => .isFalse (fun h => Value.noConfusion h)
  | .tup _, .cplx _ _ => .isFalse (fun h => Value.noConfusion h)
  | .tup _, .bool _ => .isFalse (fun h => Value.noConfusion h)
  | .tup _, .null => .isFalse (fun h => Value.noConfusion h)
  | .tup _, .str _ => .isFalse (fun h => Value.noConfusion h)

/-- Decidable equality for lists of `Value`. -/
def decEqValueList : (xs ys : List Value) → Decidable (xs = ys)
  | [], [] => .isTrue rfl
  | [], _ :: _ => .isFalse (fun h => List.noConfusion h)
  | _ :: _, [] => .isFalse (fun h => List.noConfusion h)
  | x :: xs, y :: ys =>
    match decEqValue x y with
    | .isFalse h1 => .isFalse (fun hc => by injection hc with hh ht; exact h1 hh)
    | .isTrue h1 =>
      match decEqValueList xs ys with
      | .isTrue h2 => .isTrue (by rw [h1, h2])
      | .isFalse h2 => .isFalse (fun hc => by injection hc with hh ht; exact h2 ht)

end

instance : DecidableEq Value := decEqValue

/--
A nested result: a terminal scalar (`val`), a Python list produced by the
`list` aggregation (`seq`), or a dict (`dict`), modelled as an ordered
association list mirroring Python dict insertion order.
-/
inductive Nested where
  | val (v : Value)
  | seq (vs : List Value)
  | dict (es : List (Value × Nested))
  deriving Repr

mutual

/-- Decidable equality for `Nested` (hand-written: nested inductive). -/
def decEqNested : (a b : Nested) → Decidable (a = b)
  | .val v, .val w =>
    if h : v = w then .isTrue (by rw [h]) else .isFalse (fun hc => h (by injection hc))
  | .seq vs, .seq ws =>
    if h : vs = ws then .isTrue (by rw [h]) else .isFalse (fun hc => h (by injection hc))
  | .dict es, .dict fs =>
    match decEqEntries es fs with
    | .isTrue h => .isTrue (by rw [h])
    | .isFalse h => .isFalse (fun hc => h (by injection hc))
  | .val _, .seq _ => .isFalse (fun h => Nested.noConfusion h)
  | .val _, .dict _ => .isFalse (fun h => Nested.noConfusion h)
  | .seq _, .val _ => .isFalse (fun h => Nested.noConfusion h)
  | .seq _, .dict _ => .isFalse (fun h => Nested.noConfusion h)
  | .dict _, .val _ => .isFalse (fun h => Nested.noConfusion h)
  | .dict _, .seq _ => .isFalse (fun h => Nested.noConfusion h)

/-- Decidable equality for dict entry lists. -/
def decEqEntries : (xs ys : List (Value × Nested)) → Decidable (xs = ys)
  | [], [] => .isTrue rfl
  | [], _ :: _ => .isFalse (fun h => List.noConfusion h)
  | _ :: _, [] => .isFalse (fun h => List.noConfusion h)
  | (k1, v1) :: xs, (k2, v2) :: ys =>
    match decEqValue k1 k2 with
    | .isFalse h1 =>
      .isFalse (fun hc => by
        injection hc with hh ht; injection hh with hk hv; exact h1 hk)
    | .isTrue h1 =>
      match decEqNested v1 v2 with
      | .isFalse h2 =>
        .isFalse (fun hc => by
          injection hc with hh ht; injection hh with hk hv; exact h2 hv)
      | .isTrue h2 =>
        match decEqEntries xs ys with
        | .isTrue h3 => .isTrue (by rw [h1, h2, h3])
        | .isFalse h3 => .isFalse (fun hc => by injection hc with hh ht; exact h3 ht)

end

instance : DecidableEq Nested := decEqNested

deriving instance DecidableEq for Except

/--
The numeric content of a value, when it is numeric.  Python `bool` is a
subclass of `int` (`True == 1`), so booleans are numeric with value 0 or 1.
-/
def Value.numQ : Value → Option Rat
  | .int n => some (n : Rat)
  | .fl q => some q
  | .bool b => some (if b then 1 else 0)
  | _ => none

/--
Python/pandas `==` on cells: numbers (including bools) compare by numeric
value, a complex equals a real number exactly when its imaginary part is
zero, strings compare structurally, tuples structurally, and a missing
value (`NaN`) compares unequal to everything, itself included.
-/
def pyEq (a b : Value) : Bool :=
  match a, b with
  | .cplx r1 i1, .cplx r2 i2 => r1 = r2 && i1 = i2
  | .cplx r1 i1, b =>
    match b.numQ with
    | some y => i1 = 0 && r1 = y
    | none => false
  | a, .cplx r2 i2 =>
    match a.numQ with
    | some x => i2 = 0 && x = r2
    | none => false
  | a, b =>
    match a.numQ, b.numQ with
    | some x, some y => x = y
    | _, _ =>
      match a, b with
      | .str s, .str t => s = t
      | .tup vs, .tup ws => vs = ws
      | _, _ => false

/-- pandas `!=`: the negation of `==`; in particular `NaN != x` is true. -/
def pyNe (a b : Value) : Bool := !(pyEq a b)

/--
Python/pandas `<` on cells: numeric comparison when both sides are
numeric, lexicographic comparison of strings, false when a side is
missing (`NaN` comparisons are false).  Cross-type comparisons raise in
Python 3 and are not exercised by any claim; they are modelled as false.
-/
def pyLtB (a b : Value) : Bool :=
  match a.numQ, b.numQ with
  | some x, some y => x < y
  | _, _ =>
    match a, b with
    | .str s, .str t => s < t
    | _, _ => false

/-- Python/pandas `<=` on cells. -/
def pyLeB (a b : Value) : Bool := pyLtB a b || pyEq a b

/--
Python truthiness of a value (`if value:`).  `Value.null` conflates
Python `None` (falsy) and float `NaN` (truthy); it is modelled as falsy
and no claim exercises a null operand in a truthiness position.
-/
def pyTruthy : Value → Bool
  | .int n => n ≠ 0
  | .fl q => q ≠ 0
  | .cplx re im => re ≠ 0 || im ≠ 0
  | .bool b => b
  | .null => false
  | .str s => s ≠ ""
  | .tup vs => vs ≠ []

/-- The multiplicity of the prime `p` in `n` (fuelled division loop). -/
def countFactorAux (p : Nat) : Nat → Nat → Nat
  | 0, _ => 0
  | fuel + 1, n =>
    if 2 ≤ p && n % p = 0 && n ≠ 0 then 1 + countFactorAux p fuel (n / p)
    else 0

/--
Python `str()` of a float, by exact decimal expansion of the modelled
rational: every double is a dyadic rational, so its denominator is
`2^a * 5^b` and the expansion terminates (`str(1.5) = "1.5"`,
`str(6.0) = "6.0"`, trailing zeros trimmed, one kept).  Magnitudes where
Python switches to scientific notation (at least `1e16`, below `1e-4`)
and signed zeros are not modelled faithfully; no claim exercises them.
A non-2-5-smooth denominator (never a double) renders as `num/den`.
-/
def floatStr (q : Rat) : String :=
  if q = 0 then "0.0"
  else
    let d := q.den
    let a := countFactorAux 2 d d
    let d2 := d / 2 ^ a
    let b := countFactorAux 5 d2 d2
    if d2 = 5 ^ b then
      let s := max a b
      let m := q.num.natAbs * 2 ^ (s - a) * 5 ^ (s - b)
      let ds := toString m
      let ds := if ds.length ≤ s then
          String.mk (List.replicate (s + 1 - ds.length) '0') ++ ds
        else ds
      let ip := ds.toList.take (ds.length - s)
      let fp := ds.toList.drop (ds.length - s)
      let fp2 := (fp.reverse.dropWhile (fun c => c = '0')).reverse
      let fp3 := if fp2 = [] then ['0'] else fp2
      (if q.num < 0 then "-" else "") ++ String.mk ip ++ "." ++ String.mk fp3
    else toString q.num ++ "/" ++ toString q.den

/--
A component of a Python `complex` in `repr` form: integral components
print without the `.0` (`repr(2j) = "2j"`).
-/
def cplxPart (q : Rat) : String :=
  if q.den = 1 then toString q.num else floatStr q

mutual

/--
Python `repr` of a value as used by `str()` on containers.  `NaN` has
string form `nan` (pandas `astype(str)` renders missing values so).
String `repr` always uses single quotes here; Python switches quote
style when the string itself contains a quote, which no claim exercises.
-/
def pyRepr : Value → String
  | .int n => toString n
  | .fl q => floatStr q
  | .cplx re im =>
    if re = 0 then cplxPart im ++ "j"
    else "(" ++ cplxPart re ++ (if im < 0 then "-" else "+") ++
      cplxPart (if im < 0 then -im else im) ++ "j)"
  | .bool b => if b then "True" else "False"
  | .null => "nan"
  | .str s => "\x27" ++ s ++ "\x27"
  | .tup vs => "(" ++ pyReprElems vs ++ (if vs.length = 1 then ",)" else ")")

/-- Comma-separated `repr`s of tuple elements. -/
def pyReprElems : List Value → String
  | [] => ""
  | [v] => pyRepr v
  | v :: rest => pyRepr v ++ ", " ++ pyReprElems rest

end

/--
Python `str()` of a cell, as produced by pandas `astype(str)`:
strings pass through unquoted, a missing value becomes `nan`, other
values render via `pyRepr`.
-/
def pyStr : Value → String
  | .str s => s
  | v => pyRepr v

/--
A row: an ordered association of column names to cell values, as produced
by `DataFrame.to_dict` with record orientation.
-/
abbrev Row := List (String × Value)

/--
`record[col]`: the value of a column in a row.  Columns accessed by the
engine always exist after the schema checks; an absent column yields
`null`, matching pandas filling unioned multi-sheet frames with `NaN`.
-/
def getCol (r : Row) (c : String) : Value :=
  match r.find? (fun p => p.1 = c) with
  | some p => p.2
  | none => .null

/--
A table: the column set of the DataFrame together with its ordered rows.
-/
structure Table where
  cols : List String
  rows : List Row

/--
A filter condition for one column: a single value (equality), a
list/tuple/set (membership), a caller-supplied predicate (callable), or a
mapping of operator symbols to operands.
-/
inductive Condition where
  | scalar (v : Value)
  | mem (vs : List Value)
  | pred (f : Value → Bool)
  | ops (l : List (String × Value))

/-- A filter specification: a mapping from column name to condition. -/
abbrev Filters := List (String × Condition)

/-- The operator symbols the source's operator dispatch recognises. -/
def supportedOperators : List String :=
  ["==", "!=", ">", ">=", "<", "<=", "in", "not_in",
   "contains", "startswith", "endswith", "between", "isnull"]

/--
pandas `Series.isin` membership for one cell: like `==` except that a
missing value matches a missing value in the operand list.
-/
def isinEq (v w : Value) : Bool :=
  (v = Value.null && w = Value.null) || pyEq v w

/-- The elements of a list/tuple operand; a non-sequence operand has none. -/
def operandList : Value → List Value
  | .tup vs => vs
  | _ => []

/--
Embeds `Series.str.contains` as used by the source
(`df[col].astype(str).str.contains(value, na=False)`) for patterns free
of regex metacharacters: pandas compiles the pattern as a regular
expression and `re.search`es it, which on metacharacter-free patterns is
literal substring search.  `astype(str)` leaves no missing values, so the
`na=False` argument is inert, and a missing cell participates through its
string form `nan`.
-/
def strContains (hay pat : String) : Bool :=
  decide (pat.toList <:+: hay.toList)

/-- The regular-expression metacharacters of Python `re`. -/
def regexMeta : List Char :=
  ['.', '^', '$', '*', '+', '?', '\x7b', '\x7d', '[', ']', '(', ')', '|', '\\']

/-- A pattern free of regex metacharacters: pandas `str.contains` compiles
its operand as a regex, and on such patterns `re.search` is literal
substring search. -/
def plainPattern (s : String) : Bool :=
  s.toList.all (fun c => !regexMeta.contains c)

/--
One operator application of the source's dispatch chain in
`_apply_filters` (`excel_processor.py` lines 94-122): result of the
operator on a single cell value, an unrecognised operator contributing
`true` (it only prints a diagnostic and leaves the mask unchanged).
String-valued operand positions (`contains`/`startswith`/`endswith`)
require a string operand; a non-string operand there raises in pandas and
is modelled as `false`, unexercised by any claim.
-/
def evalOp (v : Value) (op : String) (w : Value) : Bool :=
  if op = "==" then pyEq v w
  else if op = "!=" then pyNe v w
  else if op = ">" then pyLtB w v
  else if op = ">=" then pyLeB w v
  else if op = "<" then pyLtB v w
  else if op = "<=" then pyLeB v w
  else if op = "in" then (operandList w).any (isinEq v)
  else if op = "not_in" then !((operandList w).any (isinEq v))
  else if op = "contains" then
    match w with
    | .str pat => strContains (pyStr v) pat
    | _ => false
  else if op = "startswith" then
    match w with
    | .str pat => (pyStr v).startsWith pat
    | _ => false
  else if op = "endswith" then
    match w with
    | .str pat => (pyStr v).endsWith pat
    | _ => false
  else if op = "between" then
    match operandList w with
    | lo :: hi :: _ => pyLeB lo v && pyLeB v hi
    | _ => false
  else if op = "isnull" then
    if pyTruthy w then v = Value.null else v ≠ Value.null
  else true

/-- One column condition applied to a single cell value. -/
def evalCond (v : Value) : Condition → Bool
  | .scalar w => pyEq v w
  | .mem ws => ws.any (isinEq v)
  | .pred f => f v
  | .ops l => l.all (fun p => evalOp v p.1 p.2)

/--
The per-row conjunction `_apply_filters` accumulates in its mask: every
condition whose column exists in the table must hold; a condition on an
absent column is skipped (a diagnostic only, vacuously true).
-/
def rowPasses (cols : List String) (filters : Filters) (r : Row) : Bool :=
  filters.all (fun p => if cols.contains p.1 then evalCond (getCol r p.1) p.2 else true)

/--
`_apply_filters` (`excel_processor.py` lines 62-128): build a boolean
mask, one AND-term per condition, and keep exactly the rows where the
mask is true, in order.
-/
def apply_filters (t : Table) (filters : Filters) : Table :=
  ⟨t.cols, t.rows.filter (rowPasses t.cols filters)⟩

/--
Whitespace for Python `str.strip()`: the characters `str.isspace` accepts
(ASCII whitespace, the C0/C1 separators and the unicode space characters).
-/
def isPySpace (c : Char) : Bool :=
  c = ' ' || c = '\t' || c = '\n' || c = '\r' || c = '\x0b' || c = '\x0c' ||
  c = '\x1c' || c = '\x1d' || c = '\x1e' || c = '\x1f' || c = '\x85' ||
  c = '\xa0' || c = ' ' || (' ' <= c && c <= ' ') ||
  c = ' ' || c = ' ' || c = ' ' || c = ' ' || c = '　'

/-- Python `str.strip()`: drop leading and trailing whitespace. -/
def stripChars (cs : List Char) : List Char :=
  ((cs.dropWhile isPySpace).reverse.dropWhile isPySpace).reverse

/-- Tokenizer whitespace inside the parenthesised literal: space, tab,
formfeed, and newlines (implicit continuation inside parentheses;
`compile` treats a lone carriage return as a newline). -/
def tokWs (c : Char) : Bool :=
  c = ' ' || c = '\t' || c = '\n' || c = '\r' || c = '\x0c'

mutual

/-- Skip tokenizer whitespace, `#` comments (valid inside the
parenthesised expression) and backslash line continuations. -/
def skipWs : List Char → List Char
  | [] => []
  | c :: cs =>
    if tokWs c then skipWs cs
    else if c = '#' then skipComment cs
    else if c = '\\' then
      match cs with
      | '\n' :: cs2 => skipWs cs2
      | '\r' :: '\n' :: cs2 => skipWs cs2
      | '\r' :: cs2 => skipWs cs2
      | _ => c :: cs
    else c :: cs

/-- Skip to the end of a `#` comment. -/
def skipComment : List Char → List Char
  | [] => []
  | c :: cs => if c = '\n' || c = '\r' then skipWs cs else skipComment cs

end

/-- The numeric value of a hexadecimal digit. -/
def hexDigitVal (c : Char) : Nat :=
  if c.isDigit then c.toNat - 48
  else if 'a' <= c && c <= 'f' then c.toNat - 87
  else c.toNat - 55

/-- Hexadecimal digit test. -/
def isHexDigit (c : Char) : Bool :=
  c.isDigit || ('a' <= c && c <= 'f') || ('A' <= c && c <= 'F')

/-- Octal digit test. -/
def isOctDigit (c : Char) : Bool := '0' <= c && c <= '7'

/-- Binary digit test. -/
def isBinDigit (c : Char) : Bool := c = '0' || c = '1'

/-- The numeric value of a digit string in the given base. -/
def natOfBase (b : Nat) (ds : List Char) : Nat :=
  ds.foldl (fun a c => a * b + hexDigitVal c) 0

/--
The continuation of a Python digit group `(["_"] digit)*` after an
initial digit: underscores must sit strictly between digits.  Returns the
digits (underscores dropped) and the rest; `none` on a malformed
underscore (Python `SyntaxError`).
-/
def udRest (isD : Char → Bool) : List Char → Option (List Char × List Char)
  | '_' :: c :: cs =>
    if isD c then
      match udRest isD cs with
      | some (ds, r) => some (c :: ds, r)
      | none => none
    else none
  | ['_'] => none
  | c :: cs =>
    if isD c then
      match udRest isD cs with
      | some (ds, r) => some (c :: ds, r)
      | none => none
    else some ([], c :: cs)
  | [] => some ([], [])

/-- A Python `digitpart`: `digit (["_"] digit)*`. -/
def udFirst (isD : Char → Bool) (cs : List Char) : Option (List Char × List Char) :=
  match cs with
  | c :: rest =>
    if isD c then
      match udRest isD rest with
      | some (ds, r) => some (c :: ds, r)
      | none => none
    else none
  | [] => none

/-- Digits after a base prefix: `(["_"] digit)+` (a leading underscore is
allowed right after `0x`/`0o`/`0b`). -/
def udBased (isD : Char → Bool) (cs : List Char) : Option (List Char × List Char) :=
  match cs with
  | '_' :: rest => udFirst isD rest
  | _ => udFirst isD cs

/-- `10^e` as a rational, for integer `e`. -/
def pow10Z (e : Int) : Rat :=
  if 0 <= e then ((10 : Rat) ^ e.toNat) else 1 / ((10 : Rat) ^ (-e).toNat)

/--
An intermediate result of the modelled `ast.literal_eval` grammar:
`ok` carries a parsed value and the remaining input; `bad` is a definite
Python `SyntaxError`/`ValueError` (the source catches it and keeps the
original text); `outside` marks a construct beyond the modelled fragment
(the model then makes no determination about the program and
conservatively keeps the text).
-/
inductive PR (α : Type) where
  | ok (a : α) (rest : List Char)
  | bad
  | outside

/-- Prefix characters onto a string-body parse result. -/
def prChars (pre : List Char) : PR (List Char) → PR (List Char)
  | .ok body r => .ok (pre ++ body) r
  | .bad => .bad
  | .outside => .outside

/-- An optional Python `digitpart`: distinguishes absence (no digit
follows) from a malformed underscore grouping. -/
def optDigitpart (cs : List Char) : Option (Option (List Char) × List Char) :=
  match cs with
  | c :: _ =>
    if c.isDigit then
      match udFirst Char.isDigit cs with
      | some (ds, r) => some (some ds, r)
      | none => none
    else some (none, cs)
  | [] => some (none, [])

/--
Classify a decimal number once its parts are read: an integer literal
with a non-zero value may not carry leading zeros (`SyntaxError`); a
float or imaginary literal whose decimal magnitude goes beyond `1e±250`
(approaching the double overflow/underflow region, where Python yields
`inf` or `0.0`) is outside the modelled fragment, otherwise its exact
rational value is taken.
-/
def numFinish (ip fp : List Char) (hasDot : Bool) (ev : Int) (hasExp : Bool)
    (rest : List Char) : PR Value :=
  let isImag := match rest with
    | 'j' :: _ => true
    | 'J' :: _ => true
    | _ => false
  let rest2 := if isImag then rest.tail else rest
  if !hasDot && !hasExp && !isImag then
    match ip with
    | '0' :: _ => if natOfBase 10 ip = 0 then .ok (.int 0) rest2 else .bad
    | _ => .ok (.int (natOfBase 10 ip)) rest2
  else
    if ev + (ip.length : Int) > 250 || ev - (fp.length : Int) < -250 then .outside
    else
      let mant : Rat :=
        (natOfBase 10 ip : Rat) + (natOfBase 10 fp : Rat) / ((10 : Rat) ^ fp.length)
      let v : Rat := mant * pow10Z ev
      if isImag then .ok (.cplx 0 v) rest2 else .ok (.fl v) rest2

/-- Read the optional exponent of a decimal number and classify it. -/
def numExp (ip fp : List Char) (hasDot : Bool) (rest : List Char) : PR Value :=
  match rest with
  | e :: rest2 =>
    if e = 'e' || e = 'E' then
      let sr : Int × List Char := match rest2 with
        | '+' :: r => (1, r)
        | '-' :: r => (-1, r)
        | r => (1, r)
      match udFirst Char.isDigit sr.2 with
      | some (eds, rest4) => numFinish ip fp hasDot (sr.1 * (natOfBase 10 eds : Int)) true rest4
      | none => .bad
    else numFinish ip fp hasDot 0 false rest
  | [] => numFinish ip fp hasDot 0 false []

/--
An unsigned Python number token (`ast.literal_eval` fragment): hex, octal
and binary integers, decimal integers, floats and imaginary (`j`)
literals, with underscore digit grouping.
-/
def parseUnsignedNum (cs : List Char) : PR Value :=
  match cs with
  | '0' :: c :: rest =>
    if c = 'x' || c = 'X' then basedInt 16 isHexDigit rest
    else if c = 'o' || c = 'O' then basedInt 8 isOctDigit rest
    else if c = 'b' || c = 'B' then basedInt 2 isBinDigit rest
    else decimalNum cs
  | _ => decimalNum cs
where
  basedInt (b : Nat) (isD : Char → Bool) (rest : List Char) : PR Value :=
    match udBased isD rest with
    | some (ds, r) => .ok (.int (natOfBase b ds)) r
    | none => .bad
  decimalNum (cs : List Char) : PR Value :=
    match optDigitpart cs with
    | none => .bad
    | some (ipOpt, rest1) =>
      match rest1 with
      | '.' :: rest2 =>
        (match optDigitpart rest2 with
         | none => .bad
         | some (fpOpt, rest3) =>
           if ipOpt.isNone && fpOpt.isNone then .bad
           else numExp (ipOpt.getD []) (fpOpt.getD []) true rest3)
      | _ =>
        match ipOpt with
        | none => .bad
        | some ip => numExp ip [] false rest1

/-- Quote character test. -/
def isQuoteChar (c : Char) : Bool := c = '\x27' || c = '"'

/-- String-literal prefix letter (`r`, `b`, `u`, `f` and combinations). -/
def isPrefixLetter (c : Char) : Bool :=
  c = 'r' || c = 'R' || c = 'b' || c = 'B' || c = 'u' || c = 'U' || c = 'f' || c = 'F'

/-- One or two string-prefix letters followed by a quote: a raw, bytes,
unicode or formatted string literal, outside the modelled fragment. -/
def isStrPrefix : List Char → Bool
  | c1 :: c2 :: c3 :: _ =>
    isPrefixLetter c1 && (isQuoteChar c2 || (isPrefixLetter c2 && isQuoteChar c3))
  | [c1, c2] => isPrefixLetter c1 && isQuoteChar c2
  | _ => false

/-- Whether a parsed value is a Python `int` or `float` (not `bool`, not
`complex`): the only shapes `ast.literal_eval` accepts on the left of the
`±` of a complex arithmetic literal. -/
def isRealNum : Value → Bool
  | .int _ => true
  | .fl _ => true
  | _ => false

/-- The rational content of an int or float value. -/
def realQ : Value → Rat
  | .int n => (n : Rat)
  | .fl q => q
  | _ => 0

/-- Negate a numeric value (unary minus on a numeric literal). -/
def negVal : Value → Value
  | .int n => .int (-n)
  | .fl q => .fl (-q)
  | .cplx re im => .cplx (-re) (-im)
  | v => v

/-- Unicode scalar validity for an escape value: Python strings admit
lone surrogates, Lean strings do not, so surrogates are outside the
modelled fragment. -/
inductive EscClass where
  | char (c : Char)
  | surrogate
  | invalid

/-- Classify a numeric escape value. -/
def escClass (v : Nat) : EscClass :=
  if 0xD800 <= v && v <= 0xDFFF then .surrogate
  else if v > 0x10FFFF then .invalid
  else .char (Char.ofNat v)

mutual

/--
The body of a single-quoted Python string literal after its opening
quote, with escape processing: standard escapes, octal (up to three
digits), `\xhh`, `\uhhhh` and `\Uhhhhhhhh` (surrogate values are outside
the modelled fragment, out-of-range `\U` is a `SyntaxError`), line
continuations, unknown escapes kept verbatim as Python keeps them, and a
raw newline or an unterminated literal a `SyntaxError`.  `\N{...}` named
escapes are outside the modelled fragment.
-/
def parseStrBody : Nat → Char → List Char → PR (List Char)
  | 0, _, _ => .outside
  | fuel + 1, q, cs =>
    match cs with
    | [] => .bad
    | c :: rest =>
      if c = q then .ok [] rest
      else if c = '\n' || c = '\r' then .bad
      else if c = '\\' then
        match rest with
        | [] => .bad
        | e :: rest2 =>
          if e = '\n' then parseStrBody fuel q rest2
          else if e = '\r' then
            match rest2 with
            | '\n' :: r3 => parseStrBody fuel q r3
            | _ => parseStrBody fuel q rest2
          else if e = '\\' || e = '\x27' || e = '"' then
            prChars [e] (parseStrBody fuel q rest2)
          else if e = 'n' then prChars ['\n'] (parseStrBody fuel q rest2)
          else if e = 't' then prChars ['\t'] (parseStrBody fuel q rest2)
          else if e = 'r' then prChars ['\r'] (parseStrBody fuel q rest2)
          else if e = 'a' then prChars ['\x07'] (parseStrBody fuel q rest2)
          else if e = 'b' then prChars ['\x08'] (parseStrBody fuel q rest2)
          else if e = 'f' then prChars ['\x0c'] (parseStrBody fuel q rest2)
          else if e = 'v' then prChars ['\x0b'] (parseStrBody fuel q rest2)
          else if isOctDigit e then
            (match rest2 with
             | d2 :: d3 :: r3 =>
               if isOctDigit d2 && isOctDigit d3 then
                 prChars [Char.ofNat (64 * hexDigitVal e + 8 * hexDigitVal d2 + hexDigitVal d3)]
                   (parseStrBody fuel q r3)
               else if isOctDigit d2 then
                 prChars [Char.ofNat (8 * hexDigitVal e + hexDigitVal d2)]
                   (parseStrBody fuel q (d3 :: r3))
               else
                 prChars [Char.ofNat (hexDigitVal e)] (parseStrBody fuel q (d2 :: d3 :: r3))
             | [d2] =>
               if isOctDigit d2 then
                 prChars [Char.ofNat (8 * hexDigitVal e + hexDigitVal d2)] (parseStrBody fuel q [])
               else
                 prChars [Char.ofNat (hexDigitVal e)] (parseStrBody fuel q [d2])
             | [] => prChars [Char.ofNat (hexDigitVal e)] (parseStrBody fuel q []))
          else if e = 'x' then
            (match rest2 with
             | h1 :: h2 :: r3 =>
               if isHexDigit h1 && isHexDigit h2 then
                 prChars [Char.ofNat (16 * hexDigitVal h1 + hexDigitVal h2)]
                   (parseStrBody fuel q r3)
               else .bad
             | _ => .bad)
          else if e = 'u' then
            (match rest2 with
             | a :: b :: c2 :: d :: r3 =>
               if isHexDigit a && isHexDigit b && isHexDigit c2 && isHexDigit d then
                 match escClass (4096 * hexDigitVal a + 256 * hexDigitVal b +
                     16 * hexDigitVal c2 + hexDigitVal d) with
                 | .char ch => prChars [ch] (parseStrBody fuel q r3)
                 | .surrogate => .outside
                 | .invalid => .bad
               else .bad
             | _ => .bad)
          else if e = 'U' then
            (match rest2 with
             | a :: b :: c2 :: d :: a2 :: b2 :: c3 :: d2 :: r3 =>
               if isHexDigit a && isHexDigit b && isHexDigit c2 && isHexDigit d &&
                   isHexDigit a2 && isHexDigit b2 && isHexDigit c3 && isHexDigit d2 then
                 match escClass (((((((hexDigitVal a * 16 + hexDigitVal b) * 16 +
                     hexDigitVal c2) * 16 + hexDigitVal d) * 16 + hexDigitVal a2) * 16 +
                     hexDigitVal b2) * 16 + hexDigitVal c3) * 16 + hexDigitVal d2) with
                 | .char ch => prChars [ch] (parseStrBody fuel q r3)
                 | .surrogate => .outside
                 | .invalid => .bad
               else .bad
             | _ => .bad)
          else if e = 'N' then .outside
          else prChars ['\\', e] (parseStrBody fuel q rest2)
      else prChars [c] (parseStrBody fuel q rest)

/--
A string literal at a quote character, with Python's implicit
concatenation of adjacent literals; triple-quoted and prefixed (raw,
bytes, formatted) literals are outside the modelled fragment.
-/
def parseStringChain : Nat → List Char → PR (List Char)
  | 0, _ => .outside
  | fuel + 1, cs =>
    match cs with
    | q :: rest =>
      if isQuoteChar q then
        if (match rest with | a :: b :: _ => a = q && b = q | _ => false) then .outside
        else
          match parseStrBody fuel q rest with
          | .ok body r =>
            let r2 := skipWs r
            (match r2 with
             | c :: _ =>
               if isQuoteChar c then
                 match parseStringChain fuel r2 with
                 | .ok body2 r3 => .ok (body ++ body2) r3
                 | .bad => .bad
                 | .outside => .outside
               else if isStrPrefix r2 then .outside
               else .ok body r2
             | [] => .ok body r2)
          | .bad => .bad
          | .outside => .outside
      else .bad
    | [] => .bad

/--
The target of a unary `+`/`-`: a numeric constant (int, float or
complex, never `bool`), possibly wrapped in redundant parentheses
(`ast.literal_eval` accepts `-(1)` but not `-(-1)` or `-(1, 2)`).
-/
def parseSignedTarget : Nat → List Char → PR Value
  | 0, _ => .outside
  | fuel + 1, cs =>
    match skipWs cs with
    | '(' :: rest =>
      (match parseSignedTarget fuel rest with
       | .ok v r =>
         (match skipWs r with
          | ')' :: r2 => .ok v r2
          | _ => .bad)
       | .bad => .bad
       | .outside => .outside)
    | cs2 => parseUnsignedNum cs2

/--
The right operand of a complex arithmetic literal `a ± bj`: an unsigned
imaginary constant, possibly parenthesised (`_convert_num` accepts only a
constant, so no sign and no nested arithmetic).  Returns the imaginary
part.
-/
def parseCplxRhs : Nat → List Char → PR Rat
  | 0, _ => .outside
  | fuel + 1, cs =>
    match skipWs cs with
    | '(' :: rest =>
      (match parseCplxRhs fuel rest with
       | .ok im r =>
         (match skipWs r with
          | ')' :: r2 => .ok im r2
          | _ => .bad)
       | .bad => .bad
       | .outside => .outside)
    | cs2 =>
      match parseUnsignedNum cs2 with
      | .ok (.cplx _ im) r => .ok im r
      | .ok _ _ => .bad
      | .bad => .bad
      | .outside => .outside

/--
One element of the modelled `ast.literal_eval` expression grammar: a
parenthesised expression or tuple, a string chain, a keyword constant, a
signed or unsigned number, or a complex arithmetic literal `a ± bj`
(whose left side must be an int or float).  Lists, dicts, sets,
`Ellipsis`, and prefixed string literals are outside the modelled
fragment; anything else is a definite Python error.
-/
def parseElem : Nat → List Char → PR Value
  | 0, _ => .outside
  | fuel + 1, cs =>
    let core : PR Value :=
      match skipWs cs with
      | [] => .bad
      | '(' :: rest => parseParenTail fuel rest
      | '[' :: _ => .outside
      | '\x7b' :: _ => .outside
      | '.' :: '.' :: '.' :: _ => .outside
      | '+' :: rest => parseSignedTarget fuel rest
      | '-' :: rest =>
        (match parseSignedTarget fuel rest with
         | .ok v r => .ok (negVal v) r
         | .bad => .bad
         | .outside => .outside)
      | 'T' :: 'r' :: 'u' :: 'e' :: rest => .ok (.bool true) rest
      | 'F' :: 'a' :: 'l' :: 's' :: 'e' :: rest => .ok (.bool false) rest
      | 'N' :: 'o' :: 'n' :: 'e' :: rest => .ok .null rest
      | c :: rest =>
        if isQuoteChar c then
          match parseStringChain fuel (c :: rest) with
          | .ok body r => .ok (.str (String.mk body)) r
          | .bad => .bad
          | .outside => .outside
        else if isStrPrefix (c :: rest) then .outside
        else if c.isDigit || c = '.' then parseUnsignedNum (c :: rest)
        else .bad
    match core with
    | .ok v r =>
      if isRealNum v then
        match skipWs r with
        | '+' :: r2 =>
          (match parseCplxRhs fuel r2 with
           | .ok im r3 => .ok (.cplx (realQ v) im) r3
           | .bad => .bad
           | .outside => .outside)
        | '-' :: r2 =>
          (match parseCplxRhs fuel r2 with
           | .ok im r3 => .ok (.cplx (realQ v) (-im)) r3
           | .bad => .bad
           | .outside => .outside)
        | _ => .ok v r
      else .ok v r
    | .bad => .bad
    | .outside => .outside

/--
A non-empty comma-separated element sequence with optional trailing
comma, reporting whether a comma was seen at this level (Python
parenthesised expressions are tuples exactly when they contain one).
-/
def parseElems : Nat → List Char → PR (List Value × Bool)
  | 0, _ => .outside
  | fuel + 1, cs =>
    match parseElem fuel cs with
    | .ok v r =>
      (match skipWs r with
       | ',' :: r2 =>
         let r3 := skipWs r2
         (match r3 with
          | ')' :: _ => .ok ([v], true) r3
          | [] => .ok ([v], true) r3
          | _ =>
            match parseElems fuel r3 with
            | .ok (vs, _) r4 => .ok (v :: vs, true) r4
            | .bad => .bad
            | .outside => .outside)
       | r2 => .ok ([v], false) r2)
    | .bad => .bad
    | .outside => .outside

/--
The inside of a parenthesised expression after `(`: the empty tuple, a
tuple of elements (when a comma occurs), or a plain parenthesised
element.
-/
def parseParenTail : Nat → List Char → PR Value
  | 0, _ => .outside
  | fuel + 1, cs =>
    match skipWs cs with
    | ')' :: rest => .ok (.tup []) rest
    | cs2 =>
      match parseElems fuel cs2 with
      | .ok (vs, sawComma) rest =>
        (match skipWs rest with
         | ')' :: rest2 =>
           (match vs, sawComma with
            | [v], false => .ok v rest2
            | _, _ => .ok (.tup vs) rest2)
         | _ => .bad)
      | .bad => .bad
      | .outside => .outside

end

/--
The outcome of the modelled `ast.literal_eval` call of
`_parse_tuple_string` on a stripped cell: `replaced vs` when the program
obtains a tuple with elements `vs` and substitutes it for the string,
`kept` when the program raises (caught) or obtains a non-tuple and keeps
the text, `outside` when the text uses a construct beyond the modelled
fragment (container literals inside the tuple, prefixed or triple-quoted
strings, named escapes, lone surrogates, float magnitudes at the double
overflow/underflow boundary) — there the model keeps the text and makes
no claim about the program.
-/
inductive TupleOutcome where
  | replaced (vs : List Value)
  | kept
  | outside
  deriving DecidableEq, Repr

/--
`ast.literal_eval` on a stripped cell as `_parse_tuple_string` uses it:
parse a top-level comma-separated expression (a bare `a, b` is a tuple;
a parenthesised `(a, b)` equally), require the whole text consumed, and
report a tuple result, a non-tuple result or failure (`kept`), or a
fragment boundary (`outside`).  A NUL byte anywhere is a `ValueError` of
`compile` before parsing.
-/
def parseTupleLiteral (cs : List Char) : TupleOutcome :=
  if cs.contains '\x00' then .kept
  else
    match parseElems (2 * cs.length + 8) (skipWs cs) with
    | .ok (vs, sawComma) rest =>
      if skipWs rest ≠ [] then .kept
      else if sawComma then .replaced vs
      else
        match vs with
        | [.tup ws] => .replaced ws
        | _ => .kept
    | .bad => .kept
    | .outside => .outside

/--
`_parse_tuple_string` (`excel_processor.py` lines 152-172): a string
whose stripped form begins with `(`, ends with `)` and contains a comma
is handed to `ast.literal_eval`; when that yields a tuple, the structured
tuple replaces the string, on any failure or non-tuple result the
original value is returned unchanged (no exception escapes, the source
catches `ValueError`/`SyntaxError`), and every non-string value passes
through unchanged.  On `outside`-fragment texts the model keeps the
string while the program may replace it; no theorem asserts anything
about those texts.
-/
def parse_tuple_string (v : Value) : Value :=
  match v with
  | .str s =>
    let stripped := stripChars s.toList
    if stripped.head? = some '(' && stripped.getLast? = some ')' &&
        stripped.contains ',' then
      match parseTupleLiteral stripped with
      | .replaced vs => .tup vs
      | _ => .str s
    else .str s
  | v => v

mutual

/--
`_parse_nested_dict` (`excel_processor.py` lines 174-183): recurse
through dict values, map `_parse_tuple_string` over list elements, and
apply `_parse_tuple_string` to everything else.  Dict keys are left
untouched.
-/
def parse_nested_dict : Nested → Nested
  | .val v => .val (parse_tuple_string v)
  | .seq vs => .seq (vs.map parse_tuple_string)
  | .dict es => .dict (parseEntries es)

/-- `_parse_nested_dict` mapped over the entries of a dict. -/
def parseEntries : List (Value × Nested) → List (Value × Nested)
  | [] => []
  | (k, t) :: rest => (k, parse_nested_dict t) :: parseEntries rest

end

/-- Python dict lookup on the ordered entry list. -/
def dictFind (es : List (Value × Nested)) (k : Value) : Option Nested :=
  match es with
  | [] => none
  | (k1, v1) :: rest => if k1 = k then some v1 else dictFind rest k

/--
Python dict assignment on the ordered entry list: an existing key keeps
its position and gets the new value, a new key is appended (insertion
order).
-/
def dictSet (es : List (Value × Nested)) (k : Value) (v : Nested) :
    List (Value × Nested) :=
  match es with
  | [] => [(k, v)]
  | (k1, v1) :: rest =>
    if k1 = k then (k, v) :: rest else (k1, v1) :: dictSet rest k v

/--
The per-row body of the nesting loop (`excel_processor.py` lines
231-246): walk the hierarchy key values with `setdefault(key, \x7b\x7d)` and
write the payload under the last key.  The non-dict fallthrough arms are
unreachable in every use (the tree is built exclusively by this function
with paths of one fixed length, so every intermediate slot is a dict);
Python would raise there.
-/
def insertPath : List Value → Nested → Nested → Nested
  | [], _, acc => acc
  | [k], payload, acc =>
    match acc with
    | .dict es => .dict (dictSet es k payload)
    | other => other
  | k :: k2 :: ks, payload, acc =>
    match acc with
    | .dict es =>
      let sub := (dictFind es k).getD (.dict [])
      .dict (dictSet es k (insertPath (k2 :: ks) payload sub))
    | other => other

/-- The tuple of a row's values on the hierarchy columns, in order. -/
def pathOf (hier : List String) (r : Row) : List Value :=
  hier.map (getCol r)

/--
The terminal payload of one row: the bare value when exactly one value
column is selected, otherwise the mapping from value-column name to value
(`excel_processor.py` lines 242-246); zero value columns give the empty
mapping.
-/
def payloadOf (vcols : List String) (r : Row) : Nested :=
  match vcols with
  | [c] => .val (getCol r c)
  | cs => .dict (cs.map (fun c => (Value.str c, Nested.val (getCol r c))))

/--
The non-aggregated nesting loop over the records (`excel_processor.py`
lines 229-246), starting from the empty dict.
-/
def buildNested (hier vcols : List String) (records : List Row) : Nested :=
  records.foldl (fun acc r => insertPath (pathOf hier r) (payloadOf vcols r) acc)
    (.dict [])

/-- Deduplication keeping the first occurrence of each element:
the elements not already seen, in order. -/
def dedupKeepFirstAux {α : Type} [DecidableEq α] : List α → List α → List α
  | _, [] => []
  | seen, a :: rest =>
    if a ∈ seen then dedupKeepFirstAux seen rest
    else a :: dedupKeepFirstAux (a :: seen) rest

/-- Deduplication keeping the first occurrence of each element. -/
def dedupKeepFirst {α : Type} [DecidableEq α] (l : List α) : List α :=
  dedupKeepFirstAux [] l

/--
`set(key_hierarchy) - set(df.columns)`: the requested columns absent from
the table, deduplicated.  Python iterates the set in unspecified order;
the model keeps first-appearance order.
-/
def missingCols (requested cols : List String) : List String :=
  dedupKeepFirst (requested.filter (fun c => !cols.contains c))

/--
The resolved value-column list (`excel_processor.py` lines 207-213):
all non-hierarchy columns when the caller omits `value_columns`,
otherwise the caller's list (the source also accepts a single string,
which it wraps in a singleton list; the model takes the list form).
-/
def resolveValueCols (cols hier : List String) :
    Option (List String) → List String
  | none => cols.filter (fun c => !hier.contains c)
  | some vcs => vcs

/--
`to_nested_dict` (`excel_processor.py` lines 130-251) on an
already-materialised table: apply filters, hard-fail naming the missing
hierarchy columns if any (the source raises
`ValueError(f"Các cột không tồn tại: ...")`, the spec's `SchemaError`),
resolve value columns (a missing explicit value column makes the
`df[needed_cols]` projection raise `KeyError`, modelled as the second
error case), run the nesting loop and normalize tuple strings in the
result.
-/
def to_nested_dict (t : Table) (key_hierarchy : List String)
    (value_columns : Option (List String)) (filters : Option Filters) :
    Except (List String) Nested :=
  let rows := match filters with
    | some fs => (apply_filters t fs).rows
    | none => t.rows
  let missing := missingCols key_hierarchy t.cols
  if missing ≠ [] then .error missing
  else
    let value_cols := resolveValueCols t.cols key_hierarchy value_columns
    let vmissing := missingCols value_cols t.cols
    if vmissing ≠ [] then .error vmissing
    else .ok (parse_nested_dict (buildNested key_hierarchy value_cols rows))

/-- The row list a transform operates on after the optional filter pass. -/
def effectiveRows (t : Table) (fs : Option Filters) : List Row :=
  match fs with
  | some f => (apply_filters t f).rows
  | none => t.rows

/-- Whether a value is a Python `int` for aggregation purposes (`bool` is
an `int` subclass). -/
def Value.isIntLike : Value → Bool
  | .int _ => true
  | .bool _ => true
  | _ => false

/-- The integer content of an int-like value. -/
def Value.toIntD : Value → Int
  | .int n => n
  | .bool b => if b then 1 else 0
  | _ => 0

/-- Whether a value is a string. -/
def Value.isStr : Value → Bool
  | .str _ => true
  | _ => false

/-- The string content of a string value. -/
def Value.toStrD : Value → String
  | .str s => s
  | _ => ""

/--
pandas `agg(\x27sum\x27)` on a group column: integer sum on integer data,
float sum when a float participates, concatenation on string data.
A mixed-type column raises in pandas (the spec's hard
`AggregationTypeError`); that failure is modelled as `null` and is not
exercised by any claim.
-/
def pySum (vs : List Value) : Value :=
  if vs.all Value.isIntLike then .int (vs.map Value.toIntD).sum
  else if vs.all (fun v => v.numQ.isSome) then
    .fl (vs.map (fun v => v.numQ.getD 0)).sum
  else if vs.all Value.isStr then .str (String.join (vs.map Value.toStrD))
  else .null

/-- pandas `agg(\x27mean\x27)`: the numeric mean as a float; undefined
(modelled as `null`) on non-numeric data. -/
def pyMean (vs : List Value) : Value :=
  if vs ≠ [] && vs.all (fun v => v.numQ.isSome) then
    .fl ((vs.map (fun v => v.numQ.getD 0)).sum / (vs.length : Rat))
  else .null

/-- pandas `agg(\x27min\x27)`: the least element under the cell order. -/
def pyMin (vs : List Value) : Value :=
  match vs with
  | [] => .null
  | v :: rest => rest.foldl (fun a b => if pyLtB b a then b else a) v

/-- pandas `agg(\x27max\x27)`: the greatest element under the cell order. -/
def pyMax (vs : List Value) : Value :=
  match vs with
  | [] => .null
  | v :: rest => rest.foldl (fun a b => if pyLtB a b then b else a) v

/--
The scalar aggregation dispatch of `to_nested_dict_advanced`
(`excel_processor.py` lines 359-368): `sum`, `mean`, `first`, `last`,
`min` and `max` reduce the group column; any other identifier falls back
to `first` (`list` is dispatched separately, to a sequence payload).
-/
def aggScalar (name : String) (vs : List Value) : Value :=
  if name = "sum" then pySum vs
  else if name = "mean" then pyMean vs
  else if name = "first" then vs.headD .null
  else if name = "last" then vs.getLastD .null
  else if name = "min" then pyMin vs
  else if name = "max" then pyMax vs
  else vs.headD .null

/--
The aggregated payload of one group column: the `list` identifier (the
spec's `collect-as-sequence`) yields the ordered sequence of the group's
values via `x.tolist()`, anything else a scalar reduction.
-/
def aggPayload (name : String) (vs : List Value) : Nested :=
  if name = "list" then .seq vs else .val (aggScalar name vs)

/-- `aggregate.get(col, \x27first\x27)`: the identifier requested for a
column, defaulting to `first`. -/
def aggGet (agg : List (String × String)) (c : String) : String :=
  match agg.find? (fun p => p.1 = c) with
  | some p => p.2
  | none => "first"

/--
The terminal slot of one group (`excel_processor.py` lines 381-394): the
bare aggregated payload when exactly one value column is selected,
otherwise a mapping from value-column name to aggregated payload.
-/
def aggTerminal (vcols : List String) (agg : List (String × String))
    (grp : List Row) : Nested :=
  match vcols with
  | [c] => aggPayload (aggGet agg c) (grp.map (fun r => getCol r c))
  | cs =>
    .dict (cs.map (fun c =>
      (Value.str c, aggPayload (aggGet agg c) (grp.map (fun r => getCol r c)))))

/--
The aggregated build (`excel_processor.py` lines 355-394):
`df.groupby(key_hierarchy, sort=False)` drops rows with a missing value
in any group key (pandas `dropna` default), partitions the rest by the
full hierarchy tuple in first-appearance order with the original row
order kept inside each group, and writes each group's aggregated
terminal slot by the same hierarchy walk as the non-aggregated path.
-/
def buildAggregated (hier vcols : List String) (agg : List (String × String))
    (records : List Row) : Nested :=
  let recs := records.filter (fun r => !(pathOf hier r).contains Value.null)
  let paths := dedupKeepFirst (recs.map (pathOf hier))
  paths.foldl (fun acc p =>
    insertPath p (aggTerminal vcols agg (recs.filter (fun r => pathOf hier r = p)))
      acc) (.dict [])

/-- `df.drop_duplicates()`: keep the first occurrence of each full row. -/
def dedupRows (rows : List Row) : List Row := dedupKeepFirst rows

/--
The row order `df.sort_values(sort_by)` establishes: lexicographic
comparison over the sort columns under the cell order.  pandas' default
quicksort is not stable on ties; the model sorts stably, which no claim
distinguishes.
-/
def rowLeBy (cols : List String) (r1 r2 : Row) : Bool :=
  match cols with
  | [] => true
  | c :: cs =>
    if pyLtB (getCol r1 c) (getCol r2 c) then true
    else if pyLtB (getCol r2 c) (getCol r1 c) then false
    else rowLeBy cs r1 r2

/-- `df.sort_values(sort_by)` on the row list. -/
def sortRows (cols : List String) (rows : List Row) : List Row :=
  rows.mergeSort (rowLeBy cols)

/--
`to_nested_dict_advanced` (`excel_processor.py` lines 253-419) on an
already-materialised table: filters, optional duplicate dropping,
optional sort, the hierarchy schema check (the spec's `SchemaError`),
value-column resolution, then either the aggregated build (when the
aggregation mapping is non-empty: Python `if aggregate:` is false for
`None` and for an empty dict) or the same row loop as `to_nested_dict`,
and finally tuple-string normalization.
-/
def to_nested_dict_advanced (t : Table) (key_hierarchy : List String)
    (value_columns : Option (List String)) (filters : Option Filters)
    (aggregate : Option (List (String × String))) (drop_duplicates : Bool)
    (sort_by : Option (List String)) : Except (List String) Nested :=
  let rows0 := match filters with
    | some fs => (apply_filters t fs).rows
    | none => t.rows
  let rows1 := if drop_duplicates then dedupRows rows0 else rows0
  let rows := match sort_by with
    | some cols => if cols ≠ [] then sortRows cols rows1 else rows1
    | none => rows1
  let missing := missingCols key_hierarchy t.cols
  if missing ≠ [] then .error missing
  else
    let value_cols := resolveValueCols t.cols key_hierarchy value_columns
    let vmissing := missingCols value_cols t.cols
    if vmissing ≠ [] then .error vmissing
    else
      let agg := (aggregate.getD [])
      if agg ≠ [] then
        .ok (parse_nested_dict (buildAggregated key_hierarchy value_cols agg rows))
      else
        .ok (parse_nested_dict (buildNested key_hierarchy value_cols rows))

/--
The `target_key` argument of `get_keys_from_key`: a single string key,
a list of keys (a descent path), or a value of any other type (the
source returns `[]` for those).
-/
inductive TargetKey where
  | single (s : String)
  | path (ks : List Value)
  | invalid

/-- The normalised key path of a target (`excel_processor.py` lines
433-439); `none` for the unsupported-type case. -/
def keyPathOf : TargetKey → Option (List Value)
  | .single s => some [.str s]
  | .path ks => some ks
  | .invalid => none

/--
The descent along the key path (`excel_processor.py` lines 441-447):
follow each key through dicts; any absent segment (or a non-dict node)
aborts with `none`, which the source turns into `[]`.
-/
def descend : Nested → List Value → Option Nested
  | cur, [] => some cur
  | cur, k :: ks =>
    match cur with
    | .dict es =>
      match dictFind es k with
      | some v => descend v ks
      | none => none
    | _ => none

/-- Whether a node is a dict. -/
def Nested.isDict : Nested → Bool
  | .dict _ => true
  | _ => false

/--
The frontier state of the level loop in `get_keys_from_key`: the single
starting node on entry, a list of dicts after any iteration (Python
re-binds one variable across the two shapes).
-/
abbrev Frontier := Sum Nested (List Nested)

/--
One-or-more iterations of the level loop (`excel_processor.py` lines
454-469): from a dict collect its dict-valued children, from a list keep
the dict items (the source does not descend in the list branch, so
iterations after the first leave the frontier unchanged), from anything
else the frontier empties.  The source's early `return []` on an empty
frontier is observationally the final empty key collection.
-/
def loopModel : Nat → Frontier → Frontier
  | 0, cur => cur
  | n + 1, cur =>
    let next : List Nested :=
      match cur with
      | .inl (.dict es) => (es.map Prod.snd).filter Nested.isDict
      | .inl _ => []
      | .inr fr => fr.filter Nested.isDict
    loopModel n (.inr next)

/-- The final key collection (`excel_processor.py` lines 471-480). -/
def finalKeys : Frontier → List Value
  | .inl (.dict es) => es.map Prod.fst
  | .inl _ => []
  | .inr fr =>
    fr.foldl (fun acc t =>
      match t with
      | .dict es => acc ++ es.map Prod.fst
      | _ => acc) []

/--
`get_keys_from_key` (`excel_processor.py` lines 421-480): normalise the
target, descend the key path (any miss yields `[]`), then either read the
keys at the located node (`level == 1`) or run `level - 1` frontier
iterations and collect the keys across the frontier.  `level` below 1
behaves like 1 through Python's empty `range`; the model's `Nat`
subtraction matches.
-/
def get_keys_from_key (data : Nested) (target : TargetKey) (level : Nat) :
    List Value :=
  match keyPathOf target with
  | none => []
  | some kp =>
    match descend data kp with
    | none => []
    | some cur =>
      if level = 1 then
        match cur with
        | .dict es => es.map Prod.fst
        | _ => []
      else finalKeys (loopModel (level - 1) (.inl cur))

/--
The structural depth invariant of a nested result: `depthPayload P n t`
holds when every branch of `t` passes through dict nodes for exactly `n`
key levels and every terminal slot reached at depth `n` satisfies `P`.
An empty dict at a key level has no branches and holds vacuously.
-/
def depthPayload (P : Nested → Bool) : Nat → Nested → Bool
  | 0, t => P t
  | n + 1, .dict es => es.all (fun q => depthPayload P n q.2)
  | _ + 1, _ => false

/-- Every branch reaches key depth `n` (any terminal payload). -/
def depthOK : Nat → Nested → Bool := depthPayload (fun _ => true)

/-- The lookup of a full key path in a nested result. -/
def lookupPath : Nested → List Value → Option Nested
  | t, [] => some t
  | .dict es, k :: ks =>
    match dictFind es k with
    | some v => lookupPath v ks
    | none => none
  | _, _ :: _ => none

/-- `_parse_tuple_string` either leaves a value unchanged or replaces it
by a structured tuple. -/
theorem parse_tuple_string_cases (v : Value) :
    parse_tuple_string v = v ∨ ∃ vs, parse_tuple_string v = .tup vs := by
  cases v with
  | str s =>
    simp only [parse_tuple_string]
    split
    · split
      · exact Or.inr ⟨_, rfl⟩
      · exact Or.inl rfl
    · exact Or.inl rfl
  | int n => exact Or.inl rfl
  | fl q => exact Or.inl rfl
  | cplx re im => exact Or.inl rfl
  | bool b => exact Or.inl rfl
  | null => exact Or.inl rfl
  | tup vs => exact Or.inl rfl

/-- `_parse_tuple_string` is idempotent: a replaced value is a tuple, no
longer a string, and passes through unchanged on a second pass. -/
theorem parse_tuple_string_idem (v : Value) :
    parse_tuple_string (parse_tuple_string v) = parse_tuple_string v := by
  rcases parse_tuple_string_cases v with h | ⟨vs, h⟩
  · rw [h]; exact h
  · rw [h]; rfl

mutual

/-- `_parse_nested_dict` is idempotent on every nested result. -/
theorem parse_nested_dict_idem :
    ∀ t : Nested, parse_nested_dict (parse_nested_dict t) = parse_nested_dict t
  | .val v => by
    simp only [parse_nested_dict, parse_tuple_string_idem]
  | .seq vs => by
    simp only [parse_nested_dict, List.map_map, Function.comp]
    exact congrArg Nested.seq (List.map_congr_left fun v _ => parse_tuple_string_idem v)
  | .dict es => by
    simp only [parse_nested_dict, parseEntries_idem es]

/-- Idempotence of `_parse_nested_dict` on dict entry lists. -/
theorem parseEntries_idem :
    ∀ es : List (Value × Nested), parseEntries (parseEntries es) = parseEntries es
  | [] => rfl
  | (k, t) :: rest => by
    simp only [parseEntries, parse_nested_dict_idem t, parseEntries_idem rest]

end

/-- `parseEntries` is the entrywise map of `_parse_nested_dict`. -/
theorem parseEntries_eq_map (es : List (Value × Nested)) :
    parseEntries es = es.map (fun q => (q.1, parse_nested_dict q.2)) := by
  induction es with
  | nil => rfl
  | cons q rest ih => cases q; simp [parseEntries, ih]

/-- Setting a key makes it found. -/
theorem dictFind_dictSet_self (es : List (Value × Nested)) (k : Value) (v : Nested) :
    dictFind (dictSet es k v) k = some v := by
  induction es with
  | nil => simp [dictSet, dictFind]
  | cons q rest ih =>
    cases q with
    | mk k1 v1 =>
      by_cases h : k1 = k
      · simp [dictSet, dictFind, h]
      · simp [dictSet, dictFind, h, ih]

/-- Setting one key leaves every other key's lookup unchanged. -/
theorem dictFind_dictSet_ne (es : List (Value × Nested)) (k k2 : Value)
    (v : Nested) (h : k2 ≠ k) :
    dictFind (dictSet es k v) k2 = dictFind es k2 := by
  induction es with
  | nil => simp [dictSet, dictFind, Ne.symm h]
  | cons q rest ih =>
    cases q with
    | mk k1 v1 =>
      by_cases h1 : k1 = k
      · subst h1
        simp [dictSet, dictFind, Ne.symm h]
      · simp [dictSet, dictFind, h1, ih]

/-- Dict assignment never empties the entry list. -/
theorem dictSet_ne_nil (es : List (Value × Nested)) (k : Value) (v : Nested) :
    dictSet es k v ≠ [] := by
  cases es with
  | nil => simp [dictSet]
  | cons q rest =>
    cases q
    simp only [dictSet]
    split <;> simp

/-- A property holding of every entry value and of the newly set value
holds of every entry value after the assignment. -/
theorem all_dictSet {Q : Nested → Bool} {es : List (Value × Nested)}
    {k : Value} {v : Nested} (hes : ∀ q ∈ es, Q q.2 = true) (hv : Q v = true) :
    ∀ q ∈ dictSet es k v, Q q.2 = true := by
  induction es with
  | nil =>
    intro q hq
    simp only [dictSet, List.mem_singleton] at hq
    subst hq; exact hv
  | cons q0 rest ih =>
    cases q0 with
    | mk k1 v1 =>
      intro q hq
      simp only [dictSet] at hq
      split at hq
      · rcases List.mem_cons.mp hq with h | h
        · subst h; exact hv
        · exact hes q (List.mem_cons_of_mem _ h)
      · rcases List.mem_cons.mp hq with h | h
        · subst h; exact hes _ (List.mem_cons_self _ _)
        · exact ih (fun q hq => hes q (List.mem_cons_of_mem _ hq)) q h

/-- An empty dict satisfies every positive-depth invariant vacuously. -/
theorem depthPayload_nil_dict (P : Nested → Bool) (n : Nat) (hn : n ≠ 0) :
    depthPayload P n (.dict []) = true := by
  cases n with
  | zero => exact absurd rfl hn
  | succ m => simp [depthPayload]

/-- A property holding of every entry value holds of a found value. -/
theorem of_dictFind {Q : Nested → Bool} {es : List (Value × Nested)}
    {k : Value} {v : Nested} (hes : ∀ q ∈ es, Q q.2 = true)
    (hf : dictFind es k = some v) : Q v = true := by
  induction es with
  | nil => simp [dictFind] at hf
  | cons q0 rest ih =>
    cases q0 with
    | mk k1 v1 =>
      simp only [dictFind] at hf
      split at hf
      · cases hf
        exact hes _ (List.mem_cons_self _ _)
      · exact ih (fun q hq => hes q (List.mem_cons_of_mem _ hq)) hf

/-- Inserting a payload whose terminal invariant holds along a path of the
invariant's depth preserves the depth invariant. -/
theorem depthPayload_insertPath (P : Nested → Bool) :
    ∀ (p : List Value) (payload acc : Nested),
      P payload = true → depthPayload P p.length acc = true →
      depthPayload P p.length (insertPath p payload acc) = true
  | [], _, acc, _, hacc => hacc
  | [k], payload, acc, hP, hacc => by
    cases acc with
    | dict es =>
      show depthPayload P [k].length (.dict (dictSet es k payload)) = true
      simp only [List.length_cons, List.length_nil, depthPayload,
        List.all_eq_true] at hacc ⊢
      exact all_dictSet hacc hP
    | val v => simp [List.length_cons, List.length_nil, depthPayload] at hacc
    | seq vs => simp [List.length_cons, List.length_nil, depthPayload] at hacc
  | k :: k2 :: ks, payload, acc, hP, hacc => by
    cases acc with
    | dict es =>
      show depthPayload P (k :: k2 :: ks).length
          (.dict (dictSet es k (insertPath (k2 :: ks) payload
            ((dictFind es k).getD (.dict []))))) = true
      simp only [List.length_cons, depthPayload, List.all_eq_true] at hacc ⊢
      apply all_dictSet hacc
      have hsub : depthPayload P (k2 :: ks).length
          ((dictFind es k).getD (.dict [])) = true := by
        cases hfind : dictFind es k with
        | some v =>
          simpa [hfind] using of_dictFind hacc hfind
        | none =>
          simp only [hfind, Option.getD_none]
          exact depthPayload_nil_dict P _ (by simp)
      simpa using depthPayload_insertPath P (k2 :: ks) payload _ hP hsub
    | val v => simp [List.length_cons, depthPayload] at hacc
    | seq vs => simp [List.length_cons, depthPayload] at hacc

/-- The depth invariant is preserved by folding path insertions whose
paths have the invariant's depth and whose payloads satisfy the terminal
invariant. -/
theorem depthPayload_foldl_insert {α : Type} (P : Nested → Bool) (n : Nat)
    (path : α → List Value) (pay : α → Nested) :
    ∀ (l : List α) (acc : Nested),
      (∀ a ∈ l, (path a).length = n) → (∀ a ∈ l, P (pay a) = true) →
      depthPayload P n acc = true →
      depthPayload P n
        (l.foldl (fun acc a => insertPath (path a) (pay a) acc) acc) = true
  | [], acc, _, _, hacc => hacc
  | a :: rest, acc, hlen, hP, hacc => by
    simp only [List.foldl_cons]
    apply depthPayload_foldl_insert P n path pay rest
    · exact fun b hb => hlen b (List.mem_cons_of_mem _ hb)
    · exact fun b hb => hP b (List.mem_cons_of_mem _ hb)
    · have h1 := depthPayload_insertPath P (path a) (pay a) acc
        (hP a (List.mem_cons_self _ _))
      rw [hlen a (List.mem_cons_self _ _)] at h1
      exact h1 hacc

/-- Membership in the deduplication worker: the element occurs and was
not already seen. -/
theorem mem_dedupKeepFirstAux {α : Type} [DecidableEq α] :
    ∀ (l seen : List α) (a : α),
      a ∈ dedupKeepFirstAux seen l ↔ a ∈ l ∧ ¬ a ∈ seen
  | [], seen, a => by simp [dedupKeepFirstAux]
  | b :: rest, seen, a => by
    simp only [dedupKeepFirstAux]
    by_cases hb : b ∈ seen
    · rw [if_pos hb, mem_dedupKeepFirstAux rest seen a]
      constructor
      · exact fun h => ⟨List.mem_cons_of_mem _ h.1, h.2⟩
      · rintro ⟨h1, h2⟩
        rcases List.mem_cons.mp h1 with h | h
        · subst h; exact absurd hb h2
        · exact ⟨h, h2⟩
    · rw [if_neg hb]
      simp only [List.mem_cons, mem_dedupKeepFirstAux rest (b :: seen) a,
        List.mem_cons]
      by_cases hab : a = b
      · subst hab; simp [hb]
      · simp [hab]

/-- Membership is invariant under first-occurrence deduplication. -/
theorem mem_dedupKeepFirst {α : Type} [DecidableEq α] (l : List α) (a : α) :
    a ∈ dedupKeepFirst l ↔ a ∈ l := by
  simp [dedupKeepFirst, mem_dedupKeepFirstAux]

/-- First-occurrence deduplication empties only the empty list. -/
theorem dedupKeepFirst_eq_nil {α : Type} [DecidableEq α] (l : List α) :
    dedupKeepFirst l = [] ↔ l = [] := by
  cases l with
  | nil => simp [dedupKeepFirst, dedupKeepFirstAux]
  | cons a rest => simp [dedupKeepFirst, dedupKeepFirstAux]

/-- The missing-column computation names exactly the requested columns
absent from the column set. -/
theorem mem_missingCols (requested cols : List String) (c : String) :
    c ∈ missingCols requested cols ↔ c ∈ requested ∧ ¬ c ∈ cols := by
  simp [missingCols, mem_dedupKeepFirst, List.mem_filter]

/-- The missing-column computation is empty exactly when every requested
column is present. -/
theorem missingCols_eq_nil (requested cols : List String) :
    missingCols requested cols = [] ↔ ∀ c ∈ requested, c ∈ cols := by
  rw [missingCols, dedupKeepFirst_eq_nil, List.filter_eq_nil_iff]
  constructor
  · intro h c hc
    have := h c hc
    simpa using this
  · intro h c hc
    simpa using h c hc

/-- `to_nested_dict` hard-fails on a missing hierarchy column, naming the
missing columns. -/
theorem to_nested_dict_missing (t : Table) (hier : List String)
    (vcs : Option (List String)) (fs : Option Filters)
    (h : missingCols hier t.cols ≠ []) :
    to_nested_dict t hier vcs fs = .error (missingCols hier t.cols) := by
  simp [to_nested_dict, h]

/-- `to_nested_dict_advanced` hard-fails on a missing hierarchy column,
naming the missing columns. -/
theorem to_nested_dict_advanced_missing (t : Table) (hier : List String)
    (vcs : Option (List String)) (fs : Option Filters)
    (agg : Option (List (String × String))) (dd : Bool)
    (sb : Option (List String)) (h : missingCols hier t.cols ≠ []) :
    to_nested_dict_advanced t hier vcs fs agg dd sb
      = .error (missingCols hier t.cols) := by
  simp [to_nested_dict_advanced, h]

/-- A hierarchy path has the hierarchy's length. -/
theorem pathOf_length (hier : List String) (r : Row) :
    (pathOf hier r).length = hier.length :=
  List.length_map _ _

/-- A hierarchy path of a non-empty hierarchy is non-empty. -/
theorem pathOf_ne_nil (hier : List String) (r : Row) (hh : hier ≠ []) :
    pathOf hier r ≠ [] := by
  simpa [pathOf] using hh

/-- Inserting along a non-empty path into a dict yields a non-empty dict. -/
theorem insertPath_dict_ne_nil (p : List Value) (payload : Nested)
    (es : List (Value × Nested)) (hp : p ≠ []) :
    ∃ es2, insertPath p payload (.dict es) = .dict es2 ∧ es2 ≠ [] := by
  match p with
  | [] => exact absurd rfl hp
  | [k] => exact ⟨_, rfl, dictSet_ne_nil es k payload⟩
  | k :: k2 :: ks => exact ⟨_, rfl, dictSet_ne_nil es k _⟩

/-- Folding path insertions over non-empty paths keeps the tree a
non-empty dict. -/
theorem foldl_insert_dict_ne_nil {α : Type} (path : α → List Value)
    (pay : α → Nested) (hpath : ∀ a, path a ≠ []) :
    ∀ (l : List α) (es : List (Value × Nested)), es ≠ [] →
      ∃ es2, l.foldl (fun acc a => insertPath (path a) (pay a) acc) (.dict es)
          = .dict es2 ∧ es2 ≠ []
  | [], es, hes => ⟨es, rfl, hes⟩
  | a :: rest, es, hes => by
    simp only [List.foldl_cons]
    obtain ⟨es2, heq, hne⟩ := insertPath_dict_ne_nil (path a) (pay a) es (hpath a)
    rw [heq]
    exact foldl_insert_dict_ne_nil path pay hpath rest es2 hne

/-- `_parse_nested_dict` commutes with dict lookup (keys are untouched). -/
theorem dictFind_parseEntries (es : List (Value × Nested)) (k : Value) :
    dictFind (parseEntries es) k = (dictFind es k).map parse_nested_dict := by
  induction es with
  | nil => rfl
  | cons q rest ih =>
    cases q with
    | mk k1 v1 =>
      simp only [parseEntries, dictFind]
      split <;> simp [ih]

/-- `_parse_nested_dict` commutes with full-path lookup. -/
theorem lookupPath_parse :
    ∀ (t : Nested) (p : List Value),
      lookupPath (parse_nested_dict t) p = (lookupPath t p).map parse_nested_dict
  | _, [] => by simp [lookupPath]
  | .dict es, k :: ks => by
    simp only [parse_nested_dict, lookupPath, dictFind_parseEntries]
    cases hfind : dictFind es k with
    | some v => simpa using lookupPath_parse v ks
    | none => simp
  | .val v, _ :: _ => by simp [parse_nested_dict, lookupPath]
  | .seq vs, _ :: _ => by simp [parse_nested_dict, lookupPath]

/-- `_parse_nested_dict` preserves every depth invariant whose terminal
predicate it preserves (it maps dicts to dicts entrywise, keys fixed). -/
theorem depthPayload_parse (P : Nested → Bool)
    (hP : ∀ u, P u = true → P (parse_nested_dict u) = true) :
    ∀ (n : Nat) (t : Nested), depthPayload P n t = true →
      depthPayload P n (parse_nested_dict t) = true
  | 0, t, h => hP t h
  | n + 1, .dict es, h => by
    simp only [parse_nested_dict, parseEntries_eq_map, depthPayload,
      List.all_map, List.all_eq_true] at h ⊢
    exact fun q hq => depthPayload_parse P hP n q.2 (h q hq)
  | _ + 1, .val v, h => by simp [depthPayload] at h
  | _ + 1, .seq vs, h => by simp [depthPayload] at h

/-- Looking up the path just inserted finds the inserted payload,
provided the tree satisfies the depth invariant at the path's length. -/
theorem lookupPath_insertPath_self :
    ∀ (p : List Value) (payload acc : Nested), p ≠ [] →
      depthOK p.length acc = true →
      lookupPath (insertPath p payload acc) p = some payload
  | [], _, _, h, _ => absurd rfl h
  | [k], payload, acc, _, hacc => by
    cases acc with
    | dict es => simp [insertPath, lookupPath, dictFind_dictSet_self]
    | val v => simp [depthOK, depthPayload] at hacc
    | seq vs => simp [depthOK, depthPayload] at hacc
  | k :: k2 :: ks, payload, acc, _, hacc => by
    cases acc with
    | dict es =>
      simp only [depthOK, List.length_cons, depthPayload, List.all_eq_true] at hacc
      have hsub : depthOK (k2 :: ks).length
          ((dictFind es k).getD (.dict [])) = true := by
        cases hfind : dictFind es k with
        | some v => simpa [hfind] using of_dictFind hacc hfind
        | none =>
          simp only [hfind, Option.getD_none]
          exact depthPayload_nil_dict _ _ (by simp)
      simp only [insertPath, lookupPath, dictFind_dictSet_self]
      exact lookupPath_insertPath_self (k2 :: ks) payload _ (by simp) hsub
    | val v => simp [depthOK, depthPayload] at hacc
    | seq vs => simp [depthOK, depthPayload] at hacc

/-- Inserting along one path leaves the lookup of a different path of the
same length unchanged, provided the tree satisfies the depth invariant. -/
theorem lookupPath_insertPath_ne :
    ∀ (p q : List Value) (payload acc : Nested), p.length = q.length →
      p ≠ q → depthOK q.length acc = true →
      lookupPath (insertPath q payload acc) p = lookupPath acc p
  | [], [], _, _, _, hne, _ => absurd rfl hne
  | [], _ :: _, _, _, hlen, _, _ => by simp at hlen
  | _ :: _, [], _, _, hlen, _, _ => by simp at hlen
  | a :: as, b :: bs, payload, acc, hlen, hne, hacc => by
    cases acc with
    | dict es =>
      simp only [depthOK, List.length_cons, depthPayload, List.all_eq_true] at hacc
      by_cases hab : a = b
      · subst hab
        have hne2 : as ≠ bs := fun h => hne (by rw [h])
        have hlen2 : as.length = bs.length := by simpa using hlen
        cases as with
        | nil => cases bs with
          | nil => exact absurd rfl hne2
          | cons x xs => simp at hlen2
        | cons a2 as2 => cases bs with
          | nil => simp at hlen2
          | cons b2 bs2 =>
            have hsub : depthOK (b2 :: bs2).length
                ((dictFind es a).getD (.dict [])) = true := by
              cases hfind : dictFind es a with
              | some v => simpa [hfind] using of_dictFind hacc hfind
              | none =>
                simp only [hfind, Option.getD_none]
                exact depthPayload_nil_dict _ _ (by simp)
            simp only [insertPath, lookupPath, dictFind_dictSet_self]
            rw [lookupPath_insertPath_ne (a2 :: as2) (b2 :: bs2) payload _
              hlen2 hne2 hsub]
            cases hfind : dictFind es a with
            | some v => simp [hfind]
            | none =>
              simp only [hfind, Option.getD_none]
              simp [lookupPath, dictFind]
      · cases bs with
        | nil =>
          simp only [insertPath, lookupPath,
            dictFind_dictSet_ne es b a payload hab]
        | cons b2 bs2 =>
          simp only [insertPath, lookupPath,
            dictFind_dictSet_ne es b a _ hab]
    | val v => simp [depthOK, depthPayload] at hacc
    | seq vs => simp [depthOK, depthPayload] at hacc

/-- Folding insertions whose paths all differ from `p` leaves the lookup
of `p` unchanged, provided the depth invariant holds. -/
theorem lookupPath_foldl_ne {α : Type} (n : Nat) (path : α → List Value)
    (pay : α → Nested) (p : List Value) (hp : p.length = n) :
    ∀ (l : List α) (acc : Nested),
      (∀ a ∈ l, (path a).length = n) → (∀ a ∈ l, path a ≠ p) →
      depthOK n acc = true →
      lookupPath (l.foldl (fun acc a => insertPath (path a) (pay a) acc) acc) p
        = lookupPath acc p
  | [], acc, _, _, _ => rfl
  | a :: rest, acc, hlen, hne, hacc => by
    simp only [List.foldl_cons]
    rw [lookupPath_foldl_ne n path pay p hp rest _
      (fun b hb => hlen b (List.mem_cons_of_mem _ hb))
      (fun b hb => hne b (List.mem_cons_of_mem _ hb))]
    · apply lookupPath_insertPath_ne
      · rw [hp, hlen a (List.mem_cons_self _ _)]
      · exact fun h => hne a (List.mem_cons_self _ _) h.symm
      · rw [hlen a (List.mem_cons_self _ _)]
        exact hacc
    · have h1 := depthPayload_insertPath (fun _ => true) (path a) (pay a) acc
        (by rfl)
      rw [hlen a (List.mem_cons_self _ _)] at h1
      exact h1 hacc

/--
C1: For every table and every key hierarchy, if some hierarchy column is
absent from the table's column set, the transform operation
(`to_nested_dict` and `to_nested_dict_advanced`) fails with a hard
schema error that names exactly the missing column(s) and returns no
nested result; in particular requesting hierarchy `["NOPE"]` on a table
without that column raises an error naming `"NOPE"`.
-/
theorem claim_C1 :
    (∀ (t : Table) (hier : List String) (vcs : Option (List String))
        (fs : Option Filters), (∃ c ∈ hier, ¬ c ∈ t.cols) →
      to_nested_dict t hier vcs fs = .error (missingCols hier t.cols)
        ∧ missingCols hier t.cols ≠ []
        ∧ (∀ c, c ∈ missingCols hier t.cols ↔ c ∈ hier ∧ ¬ c ∈ t.cols))
    ∧ (∀ (t : Table) (hier : List String) (vcs : Option (List String))
        (fs : Option Filters) (agg : Option (List (String × String)))
        (dd : Bool) (sb : Option (List String)), (∃ c ∈ hier, ¬ c ∈ t.cols) →
      to_nested_dict_advanced t hier vcs fs agg dd sb
          = .error (missingCols hier t.cols)
        ∧ missingCols hier t.cols ≠ []
        ∧ (∀ c, c ∈ missingCols hier t.cols ↔ c ∈ hier ∧ ¬ c ∈ t.cols))
    ∧ to_nested_dict ⟨["A"], []⟩ ["NOPE"] none none = .error ["NOPE"] := by
  refine ⟨?_, ?_, by decide⟩
  · rintro t hier vcs fs ⟨c, hc, hnc⟩
    have hne : missingCols hier t.cols ≠ [] := by
      intro h0
      rw [missingCols_eq_nil] at h0
      exact hnc (h0 c hc)
    exact ⟨to_nested_dict_missing t hier vcs fs hne, hne,
      fun c => mem_missingCols hier t.cols c⟩
  · rintro t hier vcs fs agg dd sb ⟨c, hc, hnc⟩
    have hne : missingCols hier t.cols ≠ [] := by
      intro h0
      rw [missingCols_eq_nil] at h0
      exact hnc (h0 c hc)
    exact ⟨to_nested_dict_advanced_missing t hier vcs fs agg dd sb hne, hne,
      fun c => mem_missingCols hier t.cols c⟩

/--
Witness for C1 at a concrete input: the table with single column `A` and
hierarchy `["NOPE"]`; the hypothesis that some hierarchy column is
missing is discharged by computation.
-/
theorem claim_C1_witness :
    to_nested_dict ⟨["A"], []⟩ ["NOPE"] none none
        = .error (missingCols ["NOPE"] ["A"])
      ∧ missingCols ["NOPE"] ["A"] ≠ []
      ∧ (∀ c, c ∈ missingCols ["NOPE"] ["A"] ↔ c ∈ ["NOPE"] ∧ ¬ c ∈ ["A"]) :=
  claim_C1.1 ⟨["A"], []⟩ ["NOPE"] none none ⟨"NOPE", by decide, by decide⟩

/-- An operator outside the source's dispatch chain contributes `true`. -/
theorem evalOp_unknown (v : Value) (op : String) (w : Value)
    (h : ¬ op ∈ supportedOperators) : evalOp v op w = true := by
  simp only [supportedOperators, List.mem_cons, List.not_mem_nil, or_false] at h
  push_neg at h
  obtain ⟨h1, h2, h3, h4, h5, h6, h7, h8, h9, h10, h11, h12, h13⟩ := h
  simp [evalOp, h1, h2, h3, h4, h5, h6, h7, h8, h9, h10, h11, h12, h13]

/--
C4: A filter condition naming a column absent from the table, and an
operator key outside the documented operator set inside a mapping-valued
condition, are each skipped (vacuously true, diagnostic only): deleting
such a condition or operator entry from the filter specification leaves
the filtering result unchanged, whatever the other conditions are, and
filtering never aborts (it is total by construction).
-/
theorem claim_C4 :
    (∀ (t : Table) (pre post : Filters) (col : String) (cond : Condition),
      ¬ col ∈ t.cols →
      apply_filters t (pre ++ (col, cond) :: post)
        = apply_filters t (pre ++ post))
    ∧ (∀ (t : Table) (pre post : Filters) (col : String)
        (opre opost : List (String × Value)) (op : String) (w : Value),
      ¬ op ∈ supportedOperators →
      apply_filters t (pre ++ (col, .ops (opre ++ (op, w) :: opost)) :: post)
        = apply_filters t (pre ++ (col, .ops (opre ++ opost)) :: post)) := by
  constructor
  · intro t pre post col cond hcol
    simp only [apply_filters, Table.mk.injEq, true_and]
    apply List.filter_congr
    intro r _
    simp [rowPasses, List.all_append, List.all_cons, hcol]
  · intro t pre post col opre opost op w hop
    simp only [apply_filters, Table.mk.injEq, true_and]
    apply List.filter_congr
    intro r _
    simp [rowPasses, List.all_append, List.all_cons, evalCond,
      evalOp_unknown _ _ _ hop]

/--
Witness for C4 at concrete inputs: a one-column table, a condition on the
absent column `zz`, and a `frobnicate` operator entry; hypotheses are
discharged by computation.
-/
theorem claim_C4_witness :
    apply_filters ⟨["a"], [[("a", Value.int 1)]]⟩
        ([] ++ ("zz", Condition.scalar (Value.int 9)) :: [])
      = apply_filters ⟨["a"], [[("a", Value.int 1)]]⟩ ([] ++ [])
    ∧ apply_filters ⟨["a"], [[("a", Value.int 1)]]⟩
        ([] ++ ("a", Condition.ops ([] ++ ("frobnicate", Value.int 3) :: [])) :: [])
      = apply_filters ⟨["a"], [[("a", Value.int 1)]]⟩
        ([] ++ ("a", Condition.ops ([] ++ [])) :: []) :=
  ⟨claim_C4.1 ⟨["a"], [[("a", Value.int 1)]]⟩ [] [] "zz"
      (Condition.scalar (Value.int 9)) (by decide),
    claim_C4.2 ⟨["a"], [[("a", Value.int 1)]]⟩ [] [] "a" [] []
      "frobnicate" (Value.int 3) (by decide)⟩

/--
Counterexample to C5 as stated: the claim predicts that a null value is
never kept by a `contains` condition, but the source evaluates
`df[col].astype(str).str.contains(value, na=False)` and `astype(str)`
renders a missing value as the string `nan`, so the single null-valued
row IS kept when the operand `"a"` occurs in `"nan"` — the filter
returns the row, where the claim demands the empty result.
-/
theorem claim_C5_counterexample :
    (apply_filters ⟨["c"], [[("c", Value.null)]]⟩
        [("c", Condition.ops [("contains", Value.str "a")])]).rows
      = [[("c", Value.null)]]
    ∧ getCol [("c", Value.null)] "c" = Value.null := by
  decide

/--
C5 (amended): For every table, column of the table and string operand `s`
free of regex metacharacters (pandas compiles the operand as a regular
expression; on such operands the search is literal), the condition
`{column: {"contains": s}}` keeps exactly the rows in which `s` occurs as
a literal substring of the pandas string form of the row's value in that
column — where a null value has string form `nan` and is therefore kept
whenever `s` occurs in `"nan"`.
-/
theorem claim_C5 (t : Table) (col : String) (s : String)
    (hcol : col ∈ t.cols) (_hs : plainPattern s = true) :
    (apply_filters t [(col, .ops [("contains", .str s)])]).rows
      = t.rows.filter
          (fun r => decide (s.toList <:+: (pyStr (getCol r col)).toList)) := by
  simp only [apply_filters]
  apply List.filter_congr
  intro r _
  have hc : t.cols.contains col = true := List.elem_eq_true_of_mem hcol
  simp [rowPasses, evalCond, evalOp, hc, strContains]
  exact fun h => absurd hcol h

/--
Witness for C5 at a concrete input: the column `c`, operand `"an"`, and a
table with a matching string row, a null row (string form `nan`, kept)
and a non-matching row; hypotheses are discharged by computation and the
resulting filter is evaluated.
-/
theorem claim_C5_witness :
    (apply_filters
        ⟨["c"], [[("c", Value.str "banana")], [("c", Value.null)],
                 [("c", Value.str "xyz")]]⟩
        [("c", Condition.ops [("contains", Value.str "an")])]).rows
      = [[("c", Value.str "banana")], [("c", Value.null)]] := by
  have h := claim_C5
    ⟨["c"], [[("c", Value.str "banana")], [("c", Value.null)],
             [("c", Value.str "xyz")]]⟩
    "c" "an" (by decide) (by decide)
  exact h.trans (by decide)

/-- The nesting loop yields a tree of the hierarchy's depth. -/
theorem depthOK_buildNested (hier vcols : List String) (rows : List Row)
    (hh : hier ≠ []) :
    depthOK hier.length (buildNested hier vcols rows) = true := by
  unfold buildNested
  apply depthPayload_foldl_insert
  · exact fun a _ => pathOf_length hier a
  · exact fun a _ => rfl
  · exact depthPayload_nil_dict _ _ (by simpa using hh)

/-- The aggregated build yields a tree of the hierarchy's depth. -/
theorem depthOK_buildAggregated (hier vcols : List String)
    (agg : List (String × String)) (rows : List Row) (hh : hier ≠ []) :
    depthOK hier.length (buildAggregated hier vcols agg rows) = true := by
  simp only [buildAggregated]
  apply depthPayload_foldl_insert (fun _ => true) hier.length (fun p => p)
  · intro p hp
    rw [mem_dedupKeepFirst] at hp
    obtain ⟨r, _, hr⟩ := List.mem_map.mp hp
    rw [← hr]
    exact pathOf_length hier r
  · exact fun a _ => rfl
  · exact depthPayload_nil_dict _ _ (by simpa using hh)

/-- A single-value terminal payload of the nesting loop is never a dict. -/
theorem payloadOf_single_notDict (c : String) (r : Row) :
    (!(payloadOf [c] r).isDict) = true := rfl

/-- An aggregated payload is a scalar or a sequence, never a dict. -/
theorem aggPayload_notDict (name : String) (vs : List Value) :
    (!(aggPayload name vs).isDict) = true := by
  simp only [aggPayload]
  split <;> rfl

/-- Depth preservation of normalization, full-tree form. -/
theorem depthOK_parse (n : Nat) (t : Nested) (h : depthOK n t = true) :
    depthOK n (parse_nested_dict t) = true := by
  unfold depthOK at h ⊢
  exact depthPayload_parse (fun _ => true) (fun _ h2 => h2) n t h

/-- Normalization preserves non-dictness of a node. -/
theorem notDict_parse (u : Nested) (h : (!u.isDict) = true) :
    (!(parse_nested_dict u).isDict) = true := by
  cases u with
  | val v => rfl
  | seq vs => rfl
  | dict es => simp [Nested.isDict] at h

/-- Success characterization of `to_nested_dict`: an `ok` result is the
normalized nesting build over the filtered rows. -/
theorem to_nested_dict_ok (t : Table) (hier : List String)
    (vcs : Option (List String)) (fs : Option Filters) (R : Nested)
    (hok : to_nested_dict t hier vcs fs = .ok R) :
    R = parse_nested_dict (buildNested hier
        (resolveValueCols t.cols hier vcs) (effectiveRows t fs)) := by
  simp only [to_nested_dict] at hok
  split at hok
  · simp at hok
  · split at hok
    · simp at hok
    · injection hok with h
      exact h.symm

/-- Success characterization of `to_nested_dict_advanced`: an `ok` result
is the normalized aggregated or plain build over some row list. -/
theorem to_nested_dict_advanced_ok (t : Table) (hier : List String)
    (vcs : Option (List String)) (fs : Option Filters)
    (agg : Option (List (String × String))) (dd : Bool)
    (sb : Option (List String)) (R : Nested)
    (hok : to_nested_dict_advanced t hier vcs fs agg dd sb = .ok R) :
    ∃ (vc : List String) (rows : List Row),
      R = parse_nested_dict (buildAggregated hier vc (agg.getD []) rows)
      ∨ R = parse_nested_dict (buildNested hier vc rows) := by
  simp only [to_nested_dict_advanced] at hok
  split at hok
  · simp at hok
  · split at hok
    · simp at hok
    · split at hok
      · injection hok with h
        exact ⟨_, _, Or.inl h.symm⟩
      · injection hok with h
        exact ⟨_, _, Or.inr h.symm⟩

/-- A non-empty row list builds a non-empty root dict. -/
theorem buildNested_ne_nil (hier vcols : List String) (rows : List Row)
    (hh : hier ≠ []) (hr : rows ≠ []) :
    ∃ es, buildNested hier vcols rows = .dict es ∧ es ≠ [] := by
  match rows, hr with
  | r :: rest, _ =>
    unfold buildNested
    rw [List.foldl_cons]
    obtain ⟨es1, heq, hne⟩ := insertPath_dict_ne_nil (pathOf hier r)
      (payloadOf vcols r) [] (pathOf_ne_nil hier r hh)
    rw [heq]
    exact foldl_insert_dict_ne_nil (pathOf hier) (payloadOf vcols)
      (fun a => pathOf_ne_nil hier a hh) rest es1 hne

/-- Normalization preserves the non-empty-root-dict shape. -/
theorem parse_dict_ne_nil (es : List (Value × Nested)) (hne : es ≠ []) :
    ∃ es2, parse_nested_dict (.dict es) = .dict es2 ∧ es2 ≠ [] := by
  refine ⟨parseEntries es, rfl, ?_⟩
  rw [parseEntries_eq_map]
  simpa using hne

/--
C2: For every table containing rows that collide on all hierarchy
columns, the non-aggregated transform succeeds without raising or
reporting the collision, and the shared terminal slot holds the
(normalized) payload of the row appearing last in table order among the
colliding rows — last-write-wins, whatever payloads earlier rows
(the unrestricted prefix `pre`) wrote there.
-/
theorem claim_C2 (t : Table) (hier vcols : List String) (pre post : List Row)
    (r : Row) (hrows : t.rows = pre ++ r :: post) (hh : hier ≠ [])
    (hmiss : missingCols hier t.cols = [])
    (hvmiss : missingCols vcols t.cols = [])
    (hlast : ∀ r2 ∈ post, pathOf hier r2 ≠ pathOf hier r) :
    to_nested_dict t hier (some vcols) none
        = .ok (parse_nested_dict (buildNested hier vcols t.rows))
      ∧ lookupPath (parse_nested_dict (buildNested hier vcols t.rows))
          (pathOf hier r)
        = some (parse_nested_dict (payloadOf vcols r)) := by
  constructor
  · simp [to_nested_dict, hmiss, resolveValueCols, hvmiss]
  · rw [lookupPath_parse]
    have hbase : lookupPath (buildNested hier vcols t.rows) (pathOf hier r)
        = some (payloadOf vcols r) := by
      rw [hrows]
      unfold buildNested
      rw [List.foldl_append, List.foldl_cons]
      have hdepth0 : depthOK hier.length
          (pre.foldl (fun acc a => insertPath (pathOf hier a) (payloadOf vcols a) acc)
            (.dict [])) = true := by
        apply depthPayload_foldl_insert
        · exact fun a _ => pathOf_length hier a
        · exact fun a _ => rfl
        · exact depthPayload_nil_dict _ _ (by simpa using hh)
      have hdepth1 : depthOK hier.length
          (insertPath (pathOf hier r) (payloadOf vcols r)
            (pre.foldl (fun acc a => insertPath (pathOf hier a) (payloadOf vcols a) acc)
              (.dict []))) = true := by
        have h1 := depthPayload_insertPath (fun _ => true) (pathOf hier r)
          (payloadOf vcols r)
          (pre.foldl (fun acc a => insertPath (pathOf hier a) (payloadOf vcols a) acc)
            (.dict [])) rfl
        rw [pathOf_length] at h1
        exact h1 hdepth0
      rw [lookupPath_foldl_ne hier.length (pathOf hier) (payloadOf vcols)
        (pathOf hier r) (pathOf_length hier r) post _
        (fun a _ => pathOf_length hier a) hlast hdepth1]
      have h2 := lookupPath_insertPath_self (pathOf hier r) (payloadOf vcols r)
        (pre.foldl (fun acc a => insertPath (pathOf hier a) (payloadOf vcols a) acc)
          (.dict []))
        (pathOf_ne_nil hier r hh)
      rw [pathOf_length] at h2
      exact h2 hdepth0
    rw [hbase]
    rfl

/--
Witness for C2 at a concrete input: two rows with the same hierarchy
value `"A"` and payloads `1` then `2`; the transform succeeds and the
slot under `"A"` holds `2`, the later row's payload.
-/
theorem claim_C2_witness :
    (to_nested_dict
        ⟨["H", "v"], [[("H", Value.str "A"), ("v", Value.int 1)],
                      [("H", Value.str "A"), ("v", Value.int 2)]]⟩
        ["H"] (some ["v"]) none
      = .ok (parse_nested_dict (buildNested ["H"] ["v"]
          [[("H", Value.str "A"), ("v", Value.int 1)],
           [("H", Value.str "A"), ("v", Value.int 2)]]))
    ∧ lookupPath (parse_nested_dict (buildNested ["H"] ["v"]
          [[("H", Value.str "A"), ("v", Value.int 1)],
           [("H", Value.str "A"), ("v", Value.int 2)]]))
        (pathOf ["H"] [("H", Value.str "A"), ("v", Value.int 2)])
      = some (parse_nested_dict
          (payloadOf ["v"] [("H", Value.str "A"), ("v", Value.int 2)]))) :=
  claim_C2
    ⟨["H", "v"], [[("H", Value.str "A"), ("v", Value.int 1)],
                  [("H", Value.str "A"), ("v", Value.int 2)]]⟩
    ["H"] ["v"] [[("H", Value.str "A"), ("v", Value.int 1)]]
    [] [("H", Value.str "A"), ("v", Value.int 2)]
    rfl (by decide) (by decide) (by decide) (by decide)

/--
C3: For every table and non-empty key hierarchy, a result produced by
`to_nested_dict` or `to_nested_dict_advanced` nests to depth exactly the
hierarchy length: every branch passes through dict nodes for exactly that
many key levels before the terminal payload (no branch ends earlier), the
terminal payload is not a further key level when a single value column is
selected (no branch ends later), and on a non-empty table the root is a
non-empty dict, including the degenerate single-level case.
-/
theorem claim_C3 :
    (∀ (t : Table) (hier : List String) (vcs : Option (List String))
        (fs : Option Filters) (R : Nested), hier ≠ [] →
      to_nested_dict t hier vcs fs = .ok R → depthOK hier.length R = true)
    ∧ (∀ (t : Table) (hier : List String) (vcs : Option (List String))
        (fs : Option Filters) (agg : Option (List (String × String)))
        (dd : Bool) (sb : Option (List String)) (R : Nested), hier ≠ [] →
      to_nested_dict_advanced t hier vcs fs agg dd sb = .ok R →
      depthOK hier.length R = true)
    ∧ (∀ (t : Table) (hier : List String) (c : String)
        (fs : Option Filters) (R : Nested), hier ≠ [] →
      to_nested_dict t hier (some [c]) fs = .ok R →
      depthPayload (fun u => !u.isDict) hier.length R = true)
    ∧ (∀ (t : Table) (hier : List String) (vcs : Option (List String))
        (R : Nested), hier ≠ [] → t.rows ≠ [] →
      to_nested_dict t hier vcs none = .ok R →
      ∃ es, R = .dict es ∧ es ≠ []) := by
  refine ⟨?_, ?_, ?_, ?_⟩
  · intro t hier vcs fs R hh hok
    rw [to_nested_dict_ok t hier vcs fs R hok]
    exact depthOK_parse _ _ (depthOK_buildNested hier _ _ hh)
  · intro t hier vcs fs agg dd sb R hh hok
    obtain ⟨vc, rows, h | h⟩ :=
      to_nested_dict_advanced_ok t hier vcs fs agg dd sb R hok
    · rw [h]
      exact depthOK_parse _ _ (depthOK_buildAggregated hier _ _ _ hh)
    · rw [h]
      exact depthOK_parse _ _ (depthOK_buildNested hier _ _ hh)
  · intro t hier c fs R hh hok
    rw [to_nested_dict_ok t hier (some [c]) fs R hok]
    apply depthPayload_parse _ notDict_parse
    unfold buildNested
    apply depthPayload_foldl_insert
    · exact fun a _ => pathOf_length hier a
    · exact fun a _ => payloadOf_single_notDict c a
    · exact depthPayload_nil_dict _ _ (by simpa using hh)
  · intro t hier vcs R hh hr hok
    rw [to_nested_dict_ok t hier vcs none R hok]
    obtain ⟨es, heq, hne⟩ := buildNested_ne_nil hier
      (resolveValueCols t.cols hier vcs) (effectiveRows t none) hh hr
    rw [heq]
    exact parse_dict_ne_nil es hne

/--
Witness for C3 at a concrete input: a two-row single-hierarchy table;
the success hypothesis is discharged by evaluating the transform, and the
depth invariant is instantiated on its result.
-/
theorem claim_C3_witness :
    depthOK (List.length ["H"])
        (Nested.dict [(Value.str "A", Nested.val (Value.int 2))]) = true :=
  claim_C3.1
    ⟨["H", "v"], [[("H", Value.str "A"), ("v", Value.int 1)],
                  [("H", Value.str "A"), ("v", Value.int 2)]]⟩
    ["H"] (some ["v"]) none
    (Nested.dict [(Value.str "A", Nested.val (Value.int 2))])
    (by decide) (by decide)

/-- Normalization maps an empty-dict terminal to an empty-dict terminal. -/
theorem emptyDict_parse (u : Nested)
    (h : decide (u = .dict []) = true) :
    decide (parse_nested_dict u = .dict []) = true := by
  rw [decide_eq_true_eq] at h ⊢
  subst h
  rfl

/--
C10: When `value_columns` is omitted and the key hierarchy contains every
column of the table, the resolved value-column list is empty and the
transform succeeds, writing the empty mapping as every terminal slot — a
third terminal shape beyond the scalar and the non-empty column mapping.
-/
theorem claim_C10 (t : Table) (hier : List String) (fs : Option Filters)
    (hh : hier ≠ []) (hsub : ∀ c ∈ t.cols, c ∈ hier)
    (hmiss : missingCols hier t.cols = []) :
    resolveValueCols t.cols hier none = []
    ∧ ∃ R, to_nested_dict t hier none fs = .ok R
        ∧ depthPayload (fun u => decide (u = .dict [])) hier.length R = true := by
  have hvc : resolveValueCols t.cols hier none = [] := by
    simp only [resolveValueCols]
    rw [List.filter_eq_nil_iff]
    intro c hc
    simp [hsub c hc]
  have hvm : missingCols ([] : List String) t.cols = [] := rfl
  refine ⟨hvc, parse_nested_dict (buildNested hier
    (resolveValueCols t.cols hier none) (effectiveRows t fs)), ?_, ?_⟩
  · cases fs with
    | some f => simp [to_nested_dict, hmiss, hvc, hvm, effectiveRows]
    | none => simp [to_nested_dict, hmiss, hvc, hvm, effectiveRows]
  · apply depthPayload_parse (fun u => decide (u = .dict [])) emptyDict_parse
    unfold buildNested
    apply depthPayload_foldl_insert
    · exact fun a _ => pathOf_length hier a
    · intro a _
      rw [hvc]
      rfl
    · exact depthPayload_nil_dict _ _ (by simpa using hh)

/--
Witness for C10 at a concrete input: a one-row table whose two columns
are both hierarchy columns; hypotheses are discharged by computation.
-/
theorem claim_C10_witness :
    resolveValueCols ["A", "B"] ["A", "B"] none = []
    ∧ ∃ R, to_nested_dict
          ⟨["A", "B"], [[("A", Value.str "x"), ("B", Value.int 1)]]⟩
          ["A", "B"] none none = .ok R
        ∧ depthPayload (fun u => decide (u = .dict []))
            (List.length ["A", "B"]) R = true :=
  claim_C10 ⟨["A", "B"], [[("A", Value.str "x"), ("B", Value.int 1)]]⟩
    ["A", "B"] none (by decide) (by decide) (by decide)

/--
C7: Normalization is idempotent: normalizing a nested result twice equals
normalizing it once, and a value already replaced by a structured tuple
is no longer a string and is left unchanged by a second pass (likewise
for the single-value normalizer).
-/
theorem claim_C7 :
    (∀ R : Nested,
      parse_nested_dict (parse_nested_dict R) = parse_nested_dict R)
    ∧ (∀ vs : List Value, parse_tuple_string (.tup vs) = .tup vs)
    ∧ (∀ v : Value,
      parse_tuple_string (parse_tuple_string v) = parse_tuple_string v) :=
  ⟨parse_nested_dict_idem, fun _ => rfl, parse_tuple_string_idem⟩

/--
C8: On the table with rows `{G:"A", v:1}, {G:"A", v:3}, {G:"A", v:2}`,
hierarchy `[G]` and value column `v`, the aggregated transform with
`sum` returns `{"A": 6}`, and with the collecting aggregation (the spec's
`collect-as-sequence`, the engine's `list` identifier) returns
`{"A": [1, 3, 2]}`, preserving row order and duplicates.
-/
theorem claim_C8 :
    to_nested_dict_advanced
        ⟨["G", "v"], [[("G", Value.str "A"), ("v", Value.int 1)],
                      [("G", Value.str "A"), ("v", Value.int 3)],
                      [("G", Value.str "A"), ("v", Value.int 2)]]⟩
        ["G"] (some ["v"]) none (some [("v", "sum")]) false none
      = .ok (.dict [(.str "A", .val (.int 6))])
    ∧ to_nested_dict_advanced
        ⟨["G", "v"], [[("G", Value.str "A"), ("v", Value.int 1)],
                      [("G", Value.str "A"), ("v", Value.int 3)],
                      [("G", Value.str "A"), ("v", Value.int 2)]]⟩
        ["G"] (some ["v"]) none (some [("v", "list")]) false none
      = .ok (.dict [(.str "A", .seq [.int 1, .int 3, .int 2])]) := by
  decide

/-- The frontier loop keeps an empty frontier empty. -/
theorem loopModel_inr_nil : ∀ n : Nat, loopModel n (.inr []) = .inr []
  | 0 => rfl
  | n + 1 => by
    simpa [loopModel, List.filter_nil] using loopModel_inr_nil n

/--
C9: The key lookup never raises (it is total by construction): an absent
segment of the start path yields the empty collection at every level, a
branch terminating in a scalar empties the frontier and yields the empty
collection for every level of at least 2, an empty frontier stays empty
through the loop, and a level-2 lookup from an absent start path returns
the empty collection on a concrete structure.
-/
theorem claim_C9 :
    (∀ (data : Nested) (ks : List Value) (level : Nat),
      descend data ks = none →
      get_keys_from_key data (.path ks) level = [])
    ∧ (∀ (data : Nested) (s : String) (level : Nat),
      descend data [.str s] = none →
      get_keys_from_key data (.single s) level = [])
    ∧ (∀ (data : Nested) (ks : List Value) (level : Nat) (v : Value),
      2 ≤ level → descend data ks = some (.val v) →
      get_keys_from_key data (.path ks) level = [])
    ∧ (∀ n : Nat, finalKeys (loopModel n (.inr [])) = [])
    ∧ get_keys_from_key
        (.dict [(.str "a", .dict [(.str "b", .val (.int 1))])])
        (.path [.str "zz"]) 2 = [] := by
  refine ⟨?_, ?_, ?_, ?_, by decide⟩
  · intro data ks level h
    simp [get_keys_from_key, keyPathOf, h]
  · intro data s level h
    simp [get_keys_from_key, keyPathOf, h]
  · intro data ks level v hlev hdesc
    simp only [get_keys_from_key, keyPathOf, hdesc]
    have h1 : ¬ level = 1 := by omega
    rw [if_neg h1]
    obtain ⟨m, hm⟩ : ∃ m, level - 1 = m + 1 := ⟨level - 2, by omega⟩
    rw [hm]
    show finalKeys (loopModel m (.inr [])) = []
    rw [loopModel_inr_nil]
    rfl
  · intro n
    rw [loopModel_inr_nil]
    rfl

/--
Witness for C9 at concrete inputs: an absent path at level 5, and a
scalar-terminated branch at level 2; hypotheses are discharged by
computation.
-/
theorem claim_C9_witness :
    get_keys_from_key (.dict [(.str "a", .val (.int 1))])
        (.path [.str "zz"]) 5 = []
    ∧ get_keys_from_key (.dict [(.str "a", .val (.int 1))])
        (.path [.str "a"]) 2 = [] :=
  ⟨claim_C9.1 (.dict [(.str "a", .val (.int 1))]) [.str "zz"] 5 (by decide),
    claim_C9.2.2.1 (.dict [(.str "a", .val (.int 1))]) [.str "a"] 2
      (.int 1) (by decide) (by decide)⟩

end ExcelProc
